import Mathlib

/-!
Shallow embedding of the FeijoaBot guild-scoped economy ledger
(src/modules/UserDB.py, together with the ledger interface it drives).

The `users` table (UserDB.post_init) is embedded as a list of `Account`
records in row/insertion order; the primary key `(discord_id, guild_id)`
means at most one row per key, so the SQL upserts and keyed UPDATEs are
embedded as first-match list updates.  The external `positions` table is a
list of `Position` records keyed by `position_id`.  The append-only
currency ledger is a list of `LedgerEvent` records.

The module `modules/CurrencyLedgerDB.py` is imported by UserDB.py but is
not among the sources; its interface (`log_event`, `bulk_log_event`,
`SYSTEM_USER_ID`, `COLLATERAL_POOL_ID`) is modelled from the spec as an
unconditional append of one immutable event per committed mutation, with
two reserved sentinel participant ids.

Each orchestrator operation (mint_currency, burn_currency,
transfer_currency, set_currency_balance_and_log, apply_wealth_tax) is a
pure function on `EconState`.  A storage/transaction fault during the
shared transaction is injected through a `faultLog` flag meaning "the
ledger append raises"; the Python `except Exception` handlers then either
re-raise (modelled as `Except.error ()`) or, in `transfer_currency`,
return `False` — in every case after the rollback, so the state is the
input state unchanged.
-/

namespace FeijoaBot

/-- Modelled from the spec: the reserved system-account sentinel
`SYSTEM_USER_ID` exported by `modules/CurrencyLedgerDB.py`, a module that
is not among the sources ("a reserved system account sentinel representing
value creation/destruction").  Its concrete value is irrelevant; it only
has to be a fixed constant. -/
def SYSTEM_USER_ID : Nat := 0

/-- Modelled from the spec: the shared collateral-pool sentinel
`COLLATERAL_POOL_ID` exported by `modules/CurrencyLedgerDB.py`, a module
that is not among the sources.  A fixed constant distinct from
`SYSTEM_USER_ID`. -/
def COLLATERAL_POOL_ID : Nat := 1

/-- Ledger event types (spec §3: `event_type ∈ {MINT, BURN, TRANSFER}`). -/
inductive EventType where
  | MINT
  | BURN
  | TRANSFER
deriving DecidableEq

/-- Modelled from the spec: one immutable row of the append-only currency
ledger written by `CurrencyLedgerDB.log_event` (module not among the
sources): guild, event type, reason code, sender, receiver, amount,
initiator. -/
structure LedgerEvent where
  guild : Nat
  etype : EventType
  reason : String
  sender : Nat
  receiver : Nat
  amount : Int
  initiator : Nat
deriving DecidableEq

/-- One row of the `users` table (UserDB.post_init): key
`(discord_id, guild_id)`, stats `currency`, `bumps`, `xp`.  The remaining
columns (preferences, timestamps) play no role in the ledger subsystem. -/
structure Account where
  user : Nat
  guild : Nat
  currency : Int
  bumps : Int
  xp : Int
deriving DecidableEq

/-- One row of the external `positions` table as read and written by
`UserDB.apply_wealth_tax`: `position_id`, `user_id`, `guild_id`,
`collateral_dollars`, `notional_dollars`. -/
structure Position where
  pid : Nat
  user : Nat
  guild : Nat
  collateral : Int
  notional : Int
deriving DecidableEq

/-- The persistent state the ledger subsystem touches: the `users` table,
the external `positions` table and the append-only ledger. -/
structure EconState where
  accounts : List Account
  positions : List Position
  ledger : List LedgerEvent
deriving DecidableEq

/-- First row matching the primary key `(discord_id, guild_id)`; the
primary-key constraint makes this the unique matching row. -/
def findAccount (u g : Nat) : List Account → Option Account
  | [] => none
  | a :: rest => if a.user = u ∧ a.guild = g then some a else findAccount u g rest

/-- Current balance of `(u, g)`, `0` if the row is absent (absence and
zero balance are equivalent, spec §4.1). -/
def getBalance (u g : Nat) (l : List Account) : Int :=
  ((findAccount u g l).map Account.currency).getD 0

/-- The SQL upsert `INSERT .. VALUES (u, g, amt) ON CONFLICT DO UPDATE SET
currency = currency + excluded.currency` used by `mint_currency` and for
the receiver in `transfer_currency`: add to the existing row, or append a
fresh row holding `amt`. -/
def upsertAdd (u g : Nat) (amt : Int) : List Account → List Account
  | [] => [⟨u, g, amt, 0, 0⟩]
  | a :: rest =>
      if a.user = u ∧ a.guild = g then { a with currency := a.currency + amt } :: rest
      else a :: upsertAdd u g amt rest

/-- The SQL upsert `INSERT .. VALUES (u, g, v) ON CONFLICT DO UPDATE SET
currency = excluded.currency` used by `set_currency_balance_and_log`:
overwrite the existing row's balance, or append a fresh row. -/
def upsertSet (u g : Nat) (v : Int) : List Account → List Account
  | [] => [⟨u, g, v, 0, 0⟩]
  | a :: rest =>
      if a.user = u ∧ a.guild = g then { a with currency := v } :: rest
      else a :: upsertSet u g v rest

/-- A plain keyed `UPDATE users SET currency = v WHERE discord_id = u AND
guild_id = g` (no insert): used by the burn/transfer decrement paths and
by the wealth-tax cash rewrite. -/
def setCurrency (u g : Nat) (v : Int) : List Account → List Account
  | [] => []
  | a :: rest =>
      if a.user = u ∧ a.guild = g then { a with currency := v } :: rest
      else a :: setCurrency u g v rest

/-- UserDB.mint_currency: upsert `currency + amount`, append one MINT
event (sender = SYSTEM, receiver = user, initiator defaulting to the user
via Python `initiator_id or user_id`), commit; on a storage fault the
transaction is rolled back and the exception re-raised
(`Except.error ()`).  Returns the RETURNING value, the new balance. -/
def mintCurrency (u g : Nat) (amt : Int) (reason : String) (initiator : Option Nat)
    (faultLog : Bool) (s : EconState) : EconState × Except Unit Int :=
  if faultLog then (s, .error ())
  else
    let accounts := upsertAdd u g amt s.accounts
    ({ s with
        accounts := accounts,
        ledger := s.ledger ++
          [⟨g, .MINT, reason, SYSTEM_USER_ID, u, amt, initiator.getD u⟩] },
      .ok (getBalance u g accounts))

/-- UserDB.burn_currency: the single-statement conditional decrement
`UPDATE .. SET currency = currency - amt WHERE key AND currency >= amt
RETURNING currency`; when no row qualifies (absent account or
insufficient funds) roll back and return `none` with no ledger entry;
otherwise append one BURN event (sender = user, receiver = SYSTEM) and
commit, returning the new balance.  A storage fault after a successful
decrement rolls back and re-raises. -/
def burnCurrency (u g : Nat) (amt : Int) (reason : String) (initiator : Nat)
    (faultLog : Bool) (s : EconState) : EconState × Except Unit (Option Int) :=
  match findAccount u g s.accounts with
  | none => (s, .ok none)
  | some a =>
      if amt ≤ a.currency then
        if faultLog then (s, .error ())
        else
          ({ s with
              accounts := setCurrency u g (a.currency - amt) s.accounts,
              ledger := s.ledger ++
                [⟨g, .BURN, reason, u, SYSTEM_USER_ID, amt, initiator⟩] },
            .ok (some (a.currency - amt)))
      else (s, .ok none)

/-- UserDB.set_currency_balance_and_log: read the current balance (0 if
absent) inside the transaction, overwrite it with `nb`, and log the delta
as one MINT (delta > 0) or one BURN of `|delta|` (delta < 0); a delta of 0
logs nothing.  A storage fault in the ledger append rolls back and
re-raises. -/
def setCurrencyBalanceAndLog (u g : Nat) (nb : Int) (reason : String) (initiator : Nat)
    (faultLog : Bool) (s : EconState) : EconState × Except Unit Unit :=
  let cur := getBalance u g s.accounts
  let delta := nb - cur
  if delta = 0 then
    ({ s with accounts := upsertSet u g nb s.accounts }, .ok ())
  else if faultLog then (s, .error ())
  else if 0 < delta then
    ({ s with
        accounts := upsertSet u g nb s.accounts,
        ledger := s.ledger ++
          [⟨g, .MINT, reason, SYSTEM_USER_ID, u, delta, initiator⟩] },
      .ok ())
  else
    ({ s with
        accounts := upsertSet u g nb s.accounts,
        ledger := s.ledger ++
          [⟨g, .BURN, reason, u, SYSTEM_USER_ID, |delta|, initiator⟩] },
      .ok ())

/-- UserDB.transfer_currency: conditional single-statement decrement of
the sender (rowcount 0 means insufficient funds or absent sender and the
whole operation returns `false` with no effect), then upsert-add to the
receiver, then one TRANSFER event, then commit.  The `except Exception`
handler rolls back and returns `false` — it does not re-raise. -/
def transferCurrency (sender receiver g : Nat) (amt : Int) (faultLog : Bool)
    (s : EconState) : EconState × Bool :=
  match findAccount sender g s.accounts with
  | none => (s, false)
  | some a =>
      if amt ≤ a.currency then
        if faultLog then (s, false)
        else
          ({ s with
              accounts := upsertAdd receiver g amt
                (setCurrency sender g (a.currency - amt) s.accounts),
              ledger := s.ledger ++
                [⟨g, .TRANSFER, "P2P_TRANSFER", sender, receiver, amt, sender⟩] },
            true)
      else (s, false)

/-- Wealth-tax cash row selection (UserDB.apply_wealth_tax step 1): the
guild's rows with `currency > 10` whose tax
`old_balance - ceil(old_balance ^ exponent)` is strictly positive.  The
ceiling-power map `b ↦ ceil(b ^ exponent)` is abstracted as `f`. -/
def cashCond (f : Int → Int) (g : Nat) (a : Account) : Bool :=
  decide (a.guild = g ∧ 10 < a.currency ∧ 0 < a.currency - f a.currency)

/-- The taxed cash rows, in table order. -/
def taxedCash (f : Int → Int) (g : Nat) (l : List Account) : List Account :=
  l.filter (cashCond f g)

/-- Effect of the wealth-tax cash rewrite on one `users` row: rows
selected by `cashCond` get `currency = f currency`, every other row is
untouched (the batched keyed UPDATEs touch exactly the selected keys). -/
def taxAccount (f : Int → Int) (g : Nat) (a : Account) : Account :=
  if cashCond f g a then { a with currency := f a.currency } else a

/-- The rescaled notional of a position under the wealth tax:
`int(old_notional * (new_collat / old_collat))`, i.e. the exact rational
product truncated toward zero (Python `int()`), with
`new_collat = f old_collat`. -/
def newNotional (f : Int → Int) (p : Position) : Int :=
  Int.tdiv (p.notional * f p.collateral) p.collateral

/-- Wealth-tax position selection (UserDB.apply_wealth_tax step 2): guild
positions with `collateral_dollars > 10`, positive tax, and whose rescaled
notional does not round to a magnitude below 1 (`abs(new_notional) < 1`
rows are skipped entirely by `continue`). -/
def stockCond (f : Int → Int) (g : Nat) (p : Position) : Bool :=
  decide (p.guild = g ∧ 10 < p.collateral ∧ 0 < p.collateral - f p.collateral ∧
    1 ≤ |newNotional f p|)

/-- The taxed positions, in table order. -/
def taxedStocks (f : Int → Int) (g : Nat) (l : List Position) : List Position :=
  l.filter (stockCond f g)

/-- Effect of the wealth-tax position rewrite on one `positions` row. -/
def taxPosition (f : Int → Int) (g : Nat) (p : Position) : Position :=
  if stockCond f g p then
    { p with collateral := f p.collateral, notional := newNotional f p }
  else p

/-- The WEALTH_TAX ledger events built in the cash loop: one BURN per
taxed cash row, sender the taxed user, receiver SYSTEM. -/
def cashEvents (f : Int → Int) (g i : Nat) (l : List Account) : List LedgerEvent :=
  (taxedCash f g l).map
    (fun a => ⟨g, .BURN, "WEALTH_TAX", a.user, SYSTEM_USER_ID, a.currency - f a.currency, i⟩)

/-- The WEALTH_TAX_COLLATERAL ledger events built in the position loop:
one BURN per taxed position, sender the shared `COLLATERAL_POOL_ID`
sentinel (not the position's owner), receiver SYSTEM. -/
def stockEvents (f : Int → Int) (g i : Nat) (l : List Position) : List LedgerEvent :=
  (taxedStocks f g l).map
    (fun p => ⟨g, .BURN, "WEALTH_TAX_COLLATERAL", COLLATERAL_POOL_ID, SYSTEM_USER_ID,
      p.collateral - f p.collateral, i⟩)

/-- Cash removed by a tax pass: the per-row taxes accumulated by
`total_burned += tax` in the cash loop. -/
def cashBurned (f : Int → Int) (g : Nat) (l : List Account) : Int :=
  ((taxedCash f g l).map (fun a => a.currency - f a.currency)).sum

/-- Collateral removed by a tax pass: the per-row taxes accumulated by
`total_burned += tax` in the position loop. -/
def stockBurned (f : Int → Int) (g : Nat) (l : List Position) : Int :=
  ((taxedStocks f g l).map (fun p => p.collateral - f p.collateral)).sum

/-- Total burned by a tax pass, cash plus collateral. -/
def taxTotal (f : Int → Int) (g : Nat) (s : EconState) : Int :=
  cashBurned f g s.accounts + stockBurned f g s.positions

/-- Number of distinct users collected in the Python set `affected_users`
across both loops. -/
def taxAffected (f : Int → Int) (g : Nat) (s : EconState) : Nat :=
  (((taxedCash f g s.accounts).map Account.user) ++
    ((taxedStocks f g s.positions).map Position.user)).dedup.length

/-- UserDB.apply_wealth_tax with the ceiling-power map abstracted as `f`:
select and rewrite the guild's cash rows and positions, append one ledger
event per taxed row (cash rows first), and commit everything in one
transaction; return `(len(affected_users), total_burned)`.  A storage
fault in the bulk ledger append (only reached when there are events)
rolls back the whole pass and re-raises. -/
def applyWealthTax (f : Int → Int) (g i : Nat) (faultLog : Bool)
    (s : EconState) : EconState × Except Unit (Nat × Int) :=
  let evs := cashEvents f g i s.accounts ++ stockEvents f g i s.positions
  if faultLog ∧ evs ≠ [] then (s, .error ())
  else
    ({ s with
        accounts := s.accounts.map (taxAccount f g),
        positions := s.positions.map (taxPosition f g),
        ledger := s.ledger ++ evs },
      .ok (taxAffected f g s, taxTotal f g s))

/-- The ceiling-power shrinkage map of the wealth tax,
`new_balance = math.ceil(pow(old_balance, exponent))`, idealized over the
exact reals (the source computes it in IEEE double precision; on the
values the claims exercise the two agree). -/
noncomputable def ceilPow (e : ℝ) (b : Int) : Int :=
  ⌈(b : ℝ) ^ e⌉

/-- One operation of the ledger subsystem, with the fault-injection flag
of each orchestrator call. -/
inductive EconOp where
  | mint (user guild : Nat) (amount : Int) (reason : String)
      (initiator : Option Nat) (fault : Bool)
  | burn (user guild : Nat) (amount : Int) (reason : String)
      (initiator : Nat) (fault : Bool)
  | transfer (sender receiver guild : Nat) (amount : Int) (fault : Bool)
  | setBalance (user guild : Nat) (newBalance : Int) (reason : String)
      (initiator : Nat) (fault : Bool)
  | wealthTax (guild : Nat) (f : Int → Int) (initiator : Nat) (fault : Bool)

/-- State reached after one operation (the operation's return value is
dropped; failed operations leave the state unchanged). -/
def EconOp.apply (s : EconState) : EconOp → EconState
  | .mint u g a r i fl => (mintCurrency u g a r i fl s).1
  | .burn u g a r i fl => (burnCurrency u g a r i fl s).1
  | .transfer u v g a fl => (transferCurrency u v g a fl s).1
  | .setBalance u g nb r i fl => (setCurrencyBalanceAndLog u g nb r i fl s).1
  | .wealthTax g f i fl => (applyWealthTax f g i fl s).1

/-- Run a sequence of operations. -/
def runOps (s : EconState) (ops : List EconOp) : EconState :=
  ops.foldl EconOp.apply s

/-- The typed caller contracts of the operations: `PositiveInt` amounts
for mint/burn/transfer, `NonNegativeInt` target for set-balance, the
`WEALTH_TAX_COLLATERAL` reason code reserved to the tax job, and the
ceiling-power map's pointwise non-negativity
(`ceil(pow(b, e)) >= 0` for the balances `b > 10` it is applied to). -/
def EconOp.wf : EconOp → Prop
  | .mint _ _ a _ _ _ => 0 < a
  | .burn _ _ a r _ _ => 0 < a ∧ r ≠ "WEALTH_TAX_COLLATERAL"
  | .transfer _ _ _ a _ => 0 < a
  | .setBalance _ _ nb r _ _ => 0 ≤ nb ∧ r ≠ "WEALTH_TAX_COLLATERAL"
  | .wealthTax _ f _ _ => ∀ b : Int, 10 < b → 0 ≤ f b

/-- Start state of a replay: empty `users` table and empty ledger; the
external `positions` table may already hold rows written by the
collaborating trading subsystem. -/
def startState (ps : List Position) : EconState :=
  ⟨[], ps, []⟩

/-- Sum of the guild's account balances. -/
def sumBalances (g : Nat) (l : List Account) : Int :=
  ((l.filter (fun a => a.guild == g)).map Account.currency).sum

/-- Sum of the MINT amounts logged for the guild. -/
def mintSum (g : Nat) (l : List LedgerEvent) : Int :=
  ((l.filter (fun e => e.guild == g && e.etype == EventType.MINT)).map
    LedgerEvent.amount).sum

/-- Sum of all BURN amounts logged for the guild (the replay the claim
prescribes). -/
def burnSumAll (g : Nat) (l : List LedgerEvent) : Int :=
  ((l.filter (fun e => e.guild == g && e.etype == EventType.BURN)).map
    LedgerEvent.amount).sum

/-- Sum of the BURN amounts logged for the guild excluding the
collateral-tax events, which debit the external position store rather
than any account balance. -/
def burnSumCash (g : Nat) (l : List LedgerEvent) : Int :=
  ((l.filter (fun e => e.guild == g && e.etype == EventType.BURN &&
      e.reason != "WEALTH_TAX_COLLATERAL")).map LedgerEvent.amount).sum

/-- Conservation invariant actually maintained by the code: every guild's
balance total equals replayed MINTs minus replayed non-collateral
BURNs. -/
def conserves (s : EconState) : Prop :=
  ∀ g : Nat, sumBalances g s.accounts = mintSum g s.ledger - burnSumCash g s.ledger

/-- The column constraint `CHECK(currency >= 0)` of the `users` schema
(UserDB.post_init). -/
def currencyCheck (v : Int) : Bool :=
  decide (0 ≤ v)

/-- Stats a leaderboard can rank by (modules/enums.py `StatName` is not
among the sources; the view `v_user_stats` exposes exactly these
columns). -/
inductive StatName where
  | currency
  | bumps
  | xp
deriving DecidableEq

/-- Value of a stat column on a `users` row. -/
def statValue : StatName → Account → Int
  | .currency, a => a.currency
  | .bumps, a => a.bumps
  | .xp, a => a.xp

/-- Insert into a descending-sorted list, placing the new element before
the first element whose key is not larger — so an element inserted later
never jumps ahead of an equal-key element already present. -/
def insertDesc (key : Account → Int) (a : Account) : List Account → List Account
  | [] => [a]
  | b :: rest =>
      if key b ≤ key a then a :: b :: rest else b :: insertDesc key a rest

/-- Stable descending sort by `key` (the sort the `RANK() OVER (ORDER BY
stat DESC)` window materializes; SQLite's sorter keeps equal keys in row
order). -/
def sortDesc (key : Account → Int) : List Account → List Account
  | [] => []
  | a :: rest => insertDesc key a (sortDesc key rest)

/-- SQL `RANK()`: 1 plus the number of qualifying rows with a strictly
larger stat. -/
def rankOf (key : Account → Int) (rows : List Account) (a : Account) : Nat :=
  1 + (rows.filter (fun b => decide (key a < key b))).length

/-- The rows `get_leaderboard`'s query ranges over: the guild's rows with
the stat strictly positive, in table order. -/
def leaderboardRows (g : Nat) (stat : StatName) (l : List Account) : List Account :=
  l.filter (fun a => a.guild == g && decide (0 < statValue stat a))

/-- UserDB.get_leaderboard: rank the qualifying rows by the stat
descending and return `(rank, discord_id, stat)` triples truncated to
`limit`. -/
def getLeaderboard (g : Nat) (stat : StatName) (limit : Nat)
    (l : List Account) : List (Nat × Nat × Int) :=
  ((sortDesc (statValue stat) (leaderboardRows g stat l)).map
    (fun a => (rankOf (statValue stat) (leaderboardRows g stat l) a, a.user,
      statValue stat a))).take limit

/-- Concrete ids for examples: snowflake-sized, as the schema CHECKs
require. -/
def exUser : Nat := 2000001

/-- Second concrete user id. -/
def exUser2 : Nat := 2000002

/-- Concrete guild id. -/
def exGuild : Nat := 3000001

/-- Concrete admin / initiator id. -/
def exAdmin : Nat := 9000001

/-- A state with one account holding balance 100. -/
def exState100 : EconState := ⟨[⟨exUser, exGuild, 100, 0, 0⟩], [], []⟩

/-- A state with one account holding balance 1000 (the spec's wealth-tax
end-to-end scenario). -/
def exTaxState : EconState := ⟨[⟨exUser, exGuild, 1000, 0, 0⟩], [], []⟩

/-- A leveraged position with collateral 1000 and notional 1000. -/
def exPosition : Position := ⟨1, exUser, exGuild, 1000, 1000⟩

/-- A state holding only the example position. -/
def exPosState : EconState := ⟨[], [exPosition], []⟩

/-- A concrete stand-in for the ceiling-power map: the constant 502 (the
value `ceil(1000 ^ 0.9)` takes at 1000). -/
def exTaxFun : Int → Int := fun _ => 502

/-- A wealth-tax pass over a guild holding the example position. -/
def exTaxOps : List EconOp := [.wealthTax exGuild exTaxFun exAdmin false]

/-- Accounts for a leaderboard query: two tying balances of 9, one of 5,
a zero balance, and a row in a different guild. -/
def exLbAccounts : List Account :=
  [⟨exUser, exGuild, 5, 0, 0⟩, ⟨exUser2, exGuild, 9, 0, 0⟩,
   ⟨2000003, exGuild, 9, 0, 0⟩, ⟨2000004, exGuild, 0, 0, 0⟩,
   ⟨2000005, 4000001, 50, 0, 0⟩]

/-- A replay exercising all five operations. -/
def exOps : List EconOp :=
  [.mint exUser exGuild 100 "ADMIN_MINT" (some exAdmin) false,
   .transfer exUser exUser2 exGuild 40 false,
   .burn exUser2 exGuild 10 "GAME" exUser2 false,
   .setBalance exUser exGuild 30 "ADMIN_SET" exAdmin false,
   .wealthTax exGuild exTaxFun exAdmin false]

/-! ## Balance-store lemmas -/

theorem sumBalances_nil (g : Nat) : sumBalances g [] = 0 := rfl

theorem sumBalances_cons (g : Nat) (a : Account) (l : List Account) :
    sumBalances g (a :: l)
      = (if a.guild = g then a.currency else 0) + sumBalances g l := by
  by_cases h : a.guild = g <;> simp [sumBalances, List.filter_cons, h]

theorem getBalance_nil (u g : Nat) : getBalance u g [] = 0 := rfl

theorem getBalance_cons (u g : Nat) (a : Account) (l : List Account) :
    getBalance u g (a :: l)
      = if a.user = u ∧ a.guild = g then a.currency else getBalance u g l := by
  by_cases h : a.user = u ∧ a.guild = g <;> simp [getBalance, findAccount, h]

theorem findAccount_currency (u g : Nat) (l : List Account) (a : Account)
    (h : findAccount u g l = some a) : getBalance u g l = a.currency := by
  simp [getBalance, h]

theorem findAccount_key (u g : Nat) (l : List Account) (a : Account)
    (h : findAccount u g l = some a) : a.user = u ∧ a.guild = g := by
  induction l with
  | nil => simp [findAccount] at h
  | cons b rest ih =>
      rw [findAccount] at h
      by_cases hb : b.user = u ∧ b.guild = g
      · rw [if_pos hb] at h
        cases h
        exact hb
      · rw [if_neg hb] at h
        exact ih h

theorem findAccount_of_le_getBalance (u g : Nat) (l : List Account) (amt : Int)
    (hpos : 0 < amt) (hle : amt ≤ getBalance u g l) :
    ∃ a, findAccount u g l = some a ∧ a.currency = getBalance u g l := by
  cases hfind : findAccount u g l with
  | none =>
      rw [getBalance, hfind] at hle
      simp at hle
      omega
  | some a =>
      exact ⟨a, rfl, (findAccount_currency u g l a hfind).symm⟩

theorem getBalance_upsertAdd_self (u g : Nat) (amt : Int) (l : List Account) :
    getBalance u g (upsertAdd u g amt l) = getBalance u g l + amt := by
  induction l with
  | nil => simp [upsertAdd, getBalance, findAccount]
  | cons a rest ih =>
      by_cases h : a.user = u ∧ a.guild = g
      · simp [upsertAdd, h, getBalance_cons]
      · rw [upsertAdd, if_neg h, getBalance_cons, if_neg h, getBalance_cons, if_neg h]
        exact ih

theorem getBalance_upsertAdd_ne (u g u' g' : Nat) (amt : Int) (l : List Account)
    (h : ¬(u' = u ∧ g' = g)) :
    getBalance u' g' (upsertAdd u g amt l) = getBalance u' g' l := by
  induction l with
  | nil =>
      rw [upsertAdd, getBalance_cons]
      have : ¬((⟨u, g, amt, 0, 0⟩ : Account).user = u' ∧ (⟨u, g, amt, 0, 0⟩ : Account).guild = g') := by
        intro hc
        exact h ⟨hc.1.symm, hc.2.symm⟩
      rw [if_neg this, getBalance_nil]
  | cons a rest ih =>
      by_cases ha : a.user = u ∧ a.guild = g
      · rw [upsertAdd, if_pos ha, getBalance_cons, getBalance_cons]
        have : ¬(a.user = u' ∧ a.guild = g') := by
          intro hc
          exact h ⟨by rw [← hc.1, ha.1], by rw [← hc.2, ha.2]⟩
        rw [if_neg this]
        have : ¬(({ a with currency := a.currency + amt } : Account).user = u'
            ∧ ({ a with currency := a.currency + amt } : Account).guild = g') := this
        rw [if_neg this]
      · rw [upsertAdd, if_neg ha, getBalance_cons, getBalance_cons]
        by_cases hb : a.user = u' ∧ a.guild = g'
        · rw [if_pos hb, if_pos hb]
        · rw [if_neg hb, if_neg hb]
          exact ih

theorem getBalance_upsertSet_self (u g : Nat) (v : Int) (l : List Account) :
    getBalance u g (upsertSet u g v l) = v := by
  induction l with
  | nil => simp [upsertSet, getBalance, findAccount]
  | cons a rest ih =>
      by_cases h : a.user = u ∧ a.guild = g
      · simp [upsertSet, h, getBalance_cons]
      · rw [upsertSet, if_neg h, getBalance_cons, if_neg h]
        exact ih

theorem getBalance_setCurrency_self (u g : Nat) (v : Int) (l : List Account) (a : Account)
    (h : findAccount u g l = some a) :
    getBalance u g (setCurrency u g v l) = v := by
  induction l with
  | nil => simp [findAccount] at h
  | cons b rest ih =>
      by_cases hb : b.user = u ∧ b.guild = g
      · simp [setCurrency, hb, getBalance_cons]
      · rw [findAccount, if_neg hb] at h
        rw [setCurrency, if_neg hb, getBalance_cons, if_neg hb]
        exact ih h

theorem getBalance_setCurrency_ne (u g u' g' : Nat) (v : Int) (l : List Account)
    (h : ¬(u' = u ∧ g' = g)) :
    getBalance u' g' (setCurrency u g v l) = getBalance u' g' l := by
  induction l with
  | nil => rfl
  | cons a rest ih =>
      by_cases ha : a.user = u ∧ a.guild = g
      · rw [setCurrency, if_pos ha, getBalance_cons, getBalance_cons]
        have hne : ¬(a.user = u' ∧ a.guild = g') := by
          intro hc
          exact h ⟨by rw [← hc.1, ha.1], by rw [← hc.2, ha.2]⟩
        rw [if_neg hne]
        have : ¬(({ a with currency := v } : Account).user = u'
            ∧ ({ a with currency := v } : Account).guild = g') := hne
        rw [if_neg this]
      · rw [setCurrency, if_neg ha, getBalance_cons, getBalance_cons]
        by_cases hb : a.user = u' ∧ a.guild = g'
        · rw [if_pos hb, if_pos hb]
        · rw [if_neg hb, if_neg hb]
          exact ih

theorem sumBalances_upsertAdd (g' u g : Nat) (amt : Int) (l : List Account) :
    sumBalances g' (upsertAdd u g amt l)
      = sumBalances g' l + (if g' = g then amt else 0) := by
  induction l with
  | nil =>
      rw [upsertAdd, sumBalances_cons, sumBalances_nil]
      show (if g = g' then amt else 0) + 0 = 0 + if g' = g then amt else 0
      by_cases h : g = g'
      · rw [if_pos h, if_pos h.symm]
        ring
      · rw [if_neg h, if_neg (fun hc => h hc.symm)]
  | cons a rest ih =>
      by_cases ha : a.user = u ∧ a.guild = g
      · rw [upsertAdd, if_pos ha, sumBalances_cons, sumBalances_cons]
        have hg : (({ a with currency := a.currency + amt } : Account)).guild = a.guild := rfl
        rw [hg]
        by_cases hgg : a.guild = g'
        · rw [if_pos hgg, if_pos hgg, if_pos (hgg.symm.trans ha.2)]
          show a.currency + amt + sumBalances g' rest = a.currency + sumBalances g' rest + amt
          ring
        · rw [if_neg hgg, if_neg hgg, if_neg (fun hc => hgg (ha.2.trans hc.symm))]
          ring
      · rw [upsertAdd, if_neg ha, sumBalances_cons, sumBalances_cons, ih]
        ring

theorem sumBalances_upsertSet (g' u g : Nat) (v : Int) (l : List Account) :
    sumBalances g' (upsertSet u g v l)
      = sumBalances g' l + (if g' = g then v - getBalance u g l else 0) := by
  induction l with
  | nil =>
      rw [upsertSet, sumBalances_cons, sumBalances_nil, getBalance_nil]
      show (if g = g' then v else 0) + 0 = 0 + if g' = g then v - 0 else 0
      by_cases h : g = g'
      · rw [if_pos h, if_pos h.symm]
        ring
      · rw [if_neg h, if_neg (fun hc => h hc.symm)]
  | cons a rest ih =>
      by_cases ha : a.user = u ∧ a.guild = g
      · rw [upsertSet, if_pos ha, sumBalances_cons, sumBalances_cons,
          getBalance_cons, if_pos ha]
        have hg : (({ a with currency := v } : Account)).guild = a.guild := rfl
        rw [hg]
        by_cases hgg : a.guild = g'
        · rw [if_pos hgg, if_pos hgg, if_pos (hgg.symm.trans ha.2)]
          show v + sumBalances g' rest = a.currency + sumBalances g' rest + (v - a.currency)
          ring
        · rw [if_neg hgg, if_neg hgg, if_neg (fun hc => hgg (ha.2.trans hc.symm))]
          ring
      · rw [upsertSet, if_neg ha, sumBalances_cons, sumBalances_cons,
          getBalance_cons, if_neg ha, ih]
        ring

theorem sumBalances_setCurrency (g' u g : Nat) (v : Int) (l : List Account) (a : Account)
    (h : findAccount u g l = some a) :
    sumBalances g' (setCurrency u g v l)
      = sumBalances g' l + (if g' = g then v - a.currency else 0) := by
  induction l with
  | nil => simp [findAccount] at h
  | cons b rest ih =>
      by_cases hb : b.user = u ∧ b.guild = g
      · rw [findAccount, if_pos hb] at h
        injection h with h'
        subst h'
        rw [setCurrency, if_pos hb, sumBalances_cons, sumBalances_cons]
        have hg : (({ b with currency := v } : Account)).guild = b.guild := rfl
        rw [hg]
        by_cases hgg : b.guild = g'
        · rw [if_pos hgg, if_pos hgg, if_pos (hgg.symm.trans hb.2)]
          show v + sumBalances g' rest = b.currency + sumBalances g' rest + (v - b.currency)
          ring
        · rw [if_neg hgg, if_neg hgg, if_neg (fun hc => hgg (hb.2.trans hc.symm))]
          ring
      · rw [findAccount, if_neg hb] at h
        rw [setCurrency, if_neg hb, sumBalances_cons, sumBalances_cons, ih h]
        ring

/-! ## Ledger replay lemmas -/

theorem mintSum_nil (g : Nat) : mintSum g [] = 0 := rfl

theorem mintSum_cons (g : Nat) (e : LedgerEvent) (l : List LedgerEvent) :
    mintSum g (e :: l)
      = (if e.guild = g ∧ e.etype = EventType.MINT then e.amount else 0) + mintSum g l := by
  by_cases h : e.guild = g ∧ e.etype = EventType.MINT
  · simp [mintSum, List.filter_cons, h.1, h.2]
  · rw [if_neg h]
    rcases not_and_or.mp h with h1 | h1 <;> simp [mintSum, List.filter_cons, h1]

theorem mintSum_append (g : Nat) (l1 l2 : List LedgerEvent) :
    mintSum g (l1 ++ l2) = mintSum g l1 + mintSum g l2 := by
  simp [mintSum, List.filter_append]

theorem burnSumCash_nil (g : Nat) : burnSumCash g [] = 0 := rfl

theorem burnSumCash_cons (g : Nat) (e : LedgerEvent) (l : List LedgerEvent) :
    burnSumCash g (e :: l)
      = (if e.guild = g ∧ e.etype = EventType.BURN ∧ e.reason ≠ "WEALTH_TAX_COLLATERAL"
          then e.amount else 0) + burnSumCash g l := by
  by_cases h : e.guild = g ∧ e.etype = EventType.BURN ∧ e.reason ≠ "WEALTH_TAX_COLLATERAL"
  · simp [burnSumCash, List.filter_cons, h.1, h.2.1, h.2.2]
  · rw [if_neg h]
    rcases not_and_or.mp h with h1 | h1
    · simp [burnSumCash, List.filter_cons, h1]
    · rcases not_and_or.mp h1 with h2 | h2
      · simp [burnSumCash, List.filter_cons, h2]
      · simp at h2
        simp [burnSumCash, List.filter_cons, h2]

theorem burnSumCash_append (g : Nat) (l1 l2 : List LedgerEvent) :
    burnSumCash g (l1 ++ l2) = burnSumCash g l1 + burnSumCash g l2 := by
  simp [burnSumCash, List.filter_append]

/-! ## Wealth-tax lemmas -/

theorem cashCond_iff (f : Int → Int) (g : Nat) (a : Account) :
    cashCond f g a = true
      ↔ a.guild = g ∧ 10 < a.currency ∧ 0 < a.currency - f a.currency := by
  simp [cashCond]

theorem stockCond_iff (f : Int → Int) (g : Nat) (p : Position) :
    stockCond f g p = true
      ↔ p.guild = g ∧ 10 < p.collateral ∧ 0 < p.collateral - f p.collateral ∧
          1 ≤ |newNotional f p| := by
  simp [stockCond]

theorem taxedCash_cons (f : Int → Int) (g : Nat) (a : Account) (l : List Account) :
    taxedCash f g (a :: l)
      = if cashCond f g a then a :: taxedCash f g l else taxedCash f g l := by
  simp [taxedCash, List.filter_cons]

theorem cashBurned_cons (f : Int → Int) (g : Nat) (a : Account) (l : List Account) :
    cashBurned f g (a :: l)
      = (if cashCond f g a then a.currency - f a.currency else 0) + cashBurned f g l := by
  rw [cashBurned, taxedCash_cons]
  by_cases h : cashCond f g a
  · rw [if_pos h, if_pos h, List.map_cons, List.sum_cons]
    rfl
  · rw [if_neg h, if_neg h, cashBurned]
    ring

theorem taxAccount_guild (f : Int → Int) (g : Nat) (a : Account) :
    (taxAccount f g a).guild = a.guild := by
  rw [taxAccount]
  by_cases h : cashCond f g a
  · rw [if_pos h]
  · rw [if_neg h]

theorem taxAccount_user (f : Int → Int) (g : Nat) (a : Account) :
    (taxAccount f g a).user = a.user := by
  rw [taxAccount]
  by_cases h : cashCond f g a
  · rw [if_pos h]
  · rw [if_neg h]

theorem taxAccount_currency (f : Int → Int) (g : Nat) (a : Account) :
    (taxAccount f g a).currency
      = if cashCond f g a then f a.currency else a.currency := by
  rw [taxAccount]
  by_cases h : cashCond f g a
  · rw [if_pos h, if_pos h]
  · rw [if_neg h, if_neg h]

theorem sumBalances_taxMap (f : Int → Int) (g g' : Nat) (l : List Account) :
    sumBalances g' (l.map (taxAccount f g))
      = sumBalances g' l - (if g' = g then cashBurned f g l else 0) := by
  induction l with
  | nil =>
      simp [sumBalances_nil, cashBurned, taxedCash]
  | cons a rest ih =>
      rw [List.map_cons, sumBalances_cons, taxAccount_guild, taxAccount_currency,
        sumBalances_cons, cashBurned_cons, ih]
      by_cases hc : cashCond f g a
      · have hdec := (cashCond_iff f g a).mp hc
        rw [if_pos hc, if_pos hc]
        by_cases hag : a.guild = g'
        · have hgg : g' = g := hag.symm.trans hdec.1
          rw [if_pos hag, if_pos hag, if_pos hgg, if_pos hgg]
          ring
        · have hgg : ¬(g' = g) := fun h => hag (hdec.1.trans h.symm)
          rw [if_neg hag, if_neg hag, if_neg hgg, if_neg hgg]
          ring
      · rw [if_neg hc, if_neg hc]
        by_cases hgg : g' = g
        · rw [if_pos hgg, if_pos hgg]
          ring
        · rw [if_neg hgg, if_neg hgg]
          ring

theorem findAccount_taxMap (f : Int → Int) (g u g' : Nat) (l : List Account) :
    findAccount u g' (l.map (taxAccount f g))
      = (findAccount u g' l).map (taxAccount f g) := by
  induction l with
  | nil => rfl
  | cons a rest ih =>
      rw [List.map_cons, findAccount, findAccount]
      have hkey : (taxAccount f g a).user = a.user ∧ (taxAccount f g a).guild = a.guild := by
        rw [taxAccount]
        by_cases hc : cashCond f g a
        · rw [if_pos hc]
          exact ⟨rfl, rfl⟩
        · rw [if_neg hc]
          exact ⟨rfl, rfl⟩
      by_cases h : a.user = u ∧ a.guild = g'
      · rw [if_pos h, if_pos (by rw [hkey.1, hkey.2]; exact h)]
        rfl
      · rw [if_neg h, if_neg (by rw [hkey.1, hkey.2]; exact h), ih]

theorem taxAccount_currency_le (f : Int → Int) (g : Nat) (a : Account) :
    (taxAccount f g a).currency ≤ a.currency := by
  rw [taxAccount]
  by_cases hc : cashCond f g a
  · rw [if_pos hc]
    have := ((cashCond_iff f g a).mp hc).2.2
    show f a.currency ≤ a.currency
    omega
  · rw [if_neg hc]

theorem taxAccount_currency_nonneg (f : Int → Int) (g : Nat) (a : Account)
    (hf : ∀ b : Int, 10 < b → 0 ≤ f b) (ha : 0 ≤ a.currency) :
    0 ≤ (taxAccount f g a).currency := by
  rw [taxAccount]
  by_cases hc : cashCond f g a
  · rw [if_pos hc]
    exact hf a.currency ((cashCond_iff f g a).mp hc).2.1
  · rw [if_neg hc]
    exact ha

theorem mintSum_eventMap {α : Type} (g g' i : Nat) (etype : EventType) (reason : String)
    (sender : α → Nat) (amount : α → Int) (l : List α) (hety : etype ≠ EventType.MINT) :
    mintSum g' (l.map (fun a =>
      (⟨g, etype, reason, sender a, SYSTEM_USER_ID, amount a, i⟩ : LedgerEvent))) = 0 := by
  induction l with
  | nil => rfl
  | cons a rest ih =>
      rw [List.map_cons, mintSum_cons, ih, if_neg (fun hc => hety hc.2)]
      ring

theorem burnSumCash_eventMap {α : Type} (g g' i : Nat) (reason : String)
    (sender : α → Nat) (amount : α → Int) (l : List α)
    (hr : reason ≠ "WEALTH_TAX_COLLATERAL") :
    burnSumCash g' (l.map (fun a =>
      (⟨g, EventType.BURN, reason, sender a, SYSTEM_USER_ID, amount a, i⟩ : LedgerEvent)))
      = if g = g' then (l.map amount).sum else 0 := by
  induction l with
  | nil =>
      rw [List.map_nil, burnSumCash_nil]
      by_cases h : g = g' <;> simp [h]
  | cons a rest ih =>
      rw [List.map_cons, burnSumCash_cons, ih, List.map_cons, List.sum_cons]
      by_cases h : g = g'
      · rw [if_pos h, if_pos h, if_pos ⟨h, rfl, hr⟩]
      · rw [if_neg h, if_neg h, if_neg (fun hc => h hc.1), zero_add]

theorem burnSumCash_collateralMap {α : Type} (g g' i : Nat)
    (sender : α → Nat) (amount : α → Int) (l : List α) :
    burnSumCash g' (l.map (fun a =>
      (⟨g, EventType.BURN, "WEALTH_TAX_COLLATERAL", sender a, SYSTEM_USER_ID,
        amount a, i⟩ : LedgerEvent))) = 0 := by
  induction l with
  | nil => rfl
  | cons a rest ih =>
      rw [List.map_cons, burnSumCash_cons, ih, if_neg (fun hc => hc.2.2 rfl)]
      ring

/-! ## Operation characterizations -/

theorem mintSum_single (g' : Nat) (e : LedgerEvent) :
    mintSum g' [e]
      = if e.guild = g' ∧ e.etype = EventType.MINT then e.amount else 0 := by
  rw [mintSum_cons, mintSum_nil, add_zero]

theorem burnSumCash_single (g' : Nat) (e : LedgerEvent) :
    burnSumCash g' [e]
      = if e.guild = g' ∧ e.etype = EventType.BURN ∧ e.reason ≠ "WEALTH_TAX_COLLATERAL"
        then e.amount else 0 := by
  rw [burnSumCash_cons, burnSumCash_nil, add_zero]

theorem mintSum_mint_single (g g' : Nat) (r : String) (sd rc : Nat) (a : Int) (i : Nat) :
    mintSum g' [⟨g, .MINT, r, sd, rc, a, i⟩] = if g' = g then a else 0 := by
  rw [mintSum_single]
  show (if g = g' ∧ EventType.MINT = EventType.MINT then a else 0) = _
  by_cases h : g' = g
  · rw [if_pos ⟨h.symm, rfl⟩, if_pos h]
  · rw [if_neg (fun hc => h hc.1.symm), if_neg h]

theorem mintSum_burn_single (g g' : Nat) (r : String) (sd rc : Nat) (a : Int) (i : Nat) :
    mintSum g' [⟨g, .BURN, r, sd, rc, a, i⟩] = 0 := by
  rw [mintSum_single]
  show (if g = g' ∧ EventType.BURN = EventType.MINT then a else 0) = _
  rw [if_neg (fun hc => EventType.noConfusion hc.2)]

theorem mintSum_transfer_single (g g' : Nat) (r : String) (sd rc : Nat) (a : Int) (i : Nat) :
    mintSum g' [⟨g, .TRANSFER, r, sd, rc, a, i⟩] = 0 := by
  rw [mintSum_single]
  show (if g = g' ∧ EventType.TRANSFER = EventType.MINT then a else 0) = _
  rw [if_neg (fun hc => EventType.noConfusion hc.2)]

theorem burnSumCash_mint_single (g g' : Nat) (r : String) (sd rc : Nat) (a : Int) (i : Nat) :
    burnSumCash g' [⟨g, .MINT, r, sd, rc, a, i⟩] = 0 := by
  rw [burnSumCash_single]
  show (if g = g' ∧ EventType.MINT = EventType.BURN ∧ r ≠ "WEALTH_TAX_COLLATERAL"
      then a else 0) = _
  rw [if_neg (fun hc => EventType.noConfusion hc.2.1)]

theorem burnSumCash_transfer_single (g g' : Nat) (r : String) (sd rc : Nat) (a : Int) (i : Nat) :
    burnSumCash g' [⟨g, .TRANSFER, r, sd, rc, a, i⟩] = 0 := by
  rw [burnSumCash_single]
  show (if g = g' ∧ EventType.TRANSFER = EventType.BURN ∧ r ≠ "WEALTH_TAX_COLLATERAL"
      then a else 0) = _
  rw [if_neg (fun hc => EventType.noConfusion hc.2.1)]

theorem burnSumCash_burn_single (g g' : Nat) (r : String) (sd rc : Nat) (a : Int) (i : Nat)
    (hr : r ≠ "WEALTH_TAX_COLLATERAL") :
    burnSumCash g' [⟨g, .BURN, r, sd, rc, a, i⟩] = if g' = g then a else 0 := by
  rw [burnSumCash_single]
  show (if g = g' ∧ EventType.BURN = EventType.BURN ∧ r ≠ "WEALTH_TAX_COLLATERAL"
      then a else 0) = _
  by_cases h : g' = g
  · rw [if_pos ⟨h.symm, rfl, hr⟩, if_pos h]
  · rw [if_neg (fun hc => h hc.1.symm), if_neg h]

theorem mintCurrency_fault (u g : Nat) (amt : Int) (r : String) (i : Option Nat)
    (s : EconState) : mintCurrency u g amt r i true s = (s, .error ()) := rfl

theorem mintCurrency_run (u g : Nat) (amt : Int) (r : String) (i : Option Nat)
    (s : EconState) :
    mintCurrency u g amt r i false s
      = ({ s with
            accounts := upsertAdd u g amt s.accounts,
            ledger := s.ledger ++
              [⟨g, .MINT, r, SYSTEM_USER_ID, u, amt, i.getD u⟩] },
          .ok (getBalance u g (upsertAdd u g amt s.accounts))) := rfl

theorem burnCurrency_absent (u g : Nat) (amt : Int) (r : String) (i : Nat) (fl : Bool)
    (s : EconState) (hfind : findAccount u g s.accounts = none) :
    burnCurrency u g amt r i fl s = (s, .ok none) := by
  unfold burnCurrency
  rw [hfind]

theorem burnCurrency_insufficient (u g : Nat) (amt : Int) (r : String) (i : Nat) (fl : Bool)
    (s : EconState) (acc : Account) (hfind : findAccount u g s.accounts = some acc)
    (hlt : ¬ amt ≤ acc.currency) :
    burnCurrency u g amt r i fl s = (s, .ok none) := by
  unfold burnCurrency
  rw [hfind]
  exact if_neg hlt

theorem burnCurrency_fault (u g : Nat) (amt : Int) (r : String) (i : Nat)
    (s : EconState) (acc : Account) (hfind : findAccount u g s.accounts = some acc)
    (hle : amt ≤ acc.currency) :
    burnCurrency u g amt r i true s = (s, .error ()) := by
  unfold burnCurrency
  rw [hfind]
  exact if_pos hle

theorem burnCurrency_run (u g : Nat) (amt : Int) (r : String) (i : Nat)
    (s : EconState) (acc : Account) (hfind : findAccount u g s.accounts = some acc)
    (hle : amt ≤ acc.currency) :
    burnCurrency u g amt r i false s
      = ({ s with
            accounts := setCurrency u g (acc.currency - amt) s.accounts,
            ledger := s.ledger ++ [⟨g, .BURN, r, u, SYSTEM_USER_ID, amt, i⟩] },
          .ok (some (acc.currency - amt))) := by
  unfold burnCurrency
  rw [hfind]
  exact if_pos hle

theorem transferCurrency_absent (sd rc g : Nat) (amt : Int) (fl : Bool)
    (s : EconState) (hfind : findAccount sd g s.accounts = none) :
    transferCurrency sd rc g amt fl s = (s, false) := by
  unfold transferCurrency
  rw [hfind]

theorem transferCurrency_insufficient (sd rc g : Nat) (amt : Int) (fl : Bool)
    (s : EconState) (acc : Account) (hfind : findAccount sd g s.accounts = some acc)
    (hlt : ¬ amt ≤ acc.currency) :
    transferCurrency sd rc g amt fl s = (s, false) := by
  unfold transferCurrency
  rw [hfind]
  exact if_neg hlt

theorem transferCurrency_fault (sd rc g : Nat) (amt : Int)
    (s : EconState) (acc : Account) (hfind : findAccount sd g s.accounts = some acc)
    (hle : amt ≤ acc.currency) :
    transferCurrency sd rc g amt true s = (s, false) := by
  unfold transferCurrency
  rw [hfind]
  exact if_pos hle

theorem transferCurrency_run (sd rc g : Nat) (amt : Int)
    (s : EconState) (acc : Account) (hfind : findAccount sd g s.accounts = some acc)
    (hle : amt ≤ acc.currency) :
    transferCurrency sd rc g amt false s
      = ({ s with
            accounts := upsertAdd rc g amt
              (setCurrency sd g (acc.currency - amt) s.accounts),
            ledger := s.ledger ++
              [⟨g, .TRANSFER, "P2P_TRANSFER", sd, rc, amt, sd⟩] },
          true) := by
  unfold transferCurrency
  rw [hfind]
  exact if_pos hle

theorem setCurrencyBalanceAndLog_zero (u g : Nat) (nb : Int) (r : String) (i : Nat)
    (fl : Bool) (s : EconState) (hz : nb - getBalance u g s.accounts = 0) :
    setCurrencyBalanceAndLog u g nb r i fl s
      = ({ s with accounts := upsertSet u g nb s.accounts }, .ok ()) := by
  unfold setCurrencyBalanceAndLog
  rw [if_pos hz]

theorem setCurrencyBalanceAndLog_fault (u g : Nat) (nb : Int) (r : String) (i : Nat)
    (s : EconState) (hz : nb - getBalance u g s.accounts ≠ 0) :
    setCurrencyBalanceAndLog u g nb r i true s = (s, .error ()) := by
  unfold setCurrencyBalanceAndLog
  rw [if_neg hz]
  rfl

theorem setCurrencyBalanceAndLog_mint (u g : Nat) (nb : Int) (r : String) (i : Nat)
    (s : EconState) (hpos : 0 < nb - getBalance u g s.accounts) :
    setCurrencyBalanceAndLog u g nb r i false s
      = ({ s with
            accounts := upsertSet u g nb s.accounts,
            ledger := s.ledger ++
              [⟨g, .MINT, r, SYSTEM_USER_ID, u, nb - getBalance u g s.accounts, i⟩] },
          .ok ()) := by
  unfold setCurrencyBalanceAndLog
  rw [if_neg (by omega : ¬ nb - getBalance u g s.accounts = 0)]
  rw [if_neg (by exact Bool.false_ne_true)]
  rw [if_pos hpos]

theorem setCurrencyBalanceAndLog_burn (u g : Nat) (nb : Int) (r : String) (i : Nat)
    (s : EconState) (hneg : nb - getBalance u g s.accounts < 0) :
    setCurrencyBalanceAndLog u g nb r i false s
      = ({ s with
            accounts := upsertSet u g nb s.accounts,
            ledger := s.ledger ++
              [⟨g, .BURN, r, u, SYSTEM_USER_ID, |nb - getBalance u g s.accounts|, i⟩] },
          .ok ()) := by
  unfold setCurrencyBalanceAndLog
  rw [if_neg (by omega : ¬ nb - getBalance u g s.accounts = 0)]
  rw [if_neg (by exact Bool.false_ne_true)]
  rw [if_neg (by omega : ¬ 0 < nb - getBalance u g s.accounts)]

theorem applyWealthTax_fault (f : Int → Int) (g i : Nat) (s : EconState)
    (hne : cashEvents f g i s.accounts ++ stockEvents f g i s.positions ≠ []) :
    applyWealthTax f g i true s = (s, .error ()) := by
  unfold applyWealthTax
  rw [if_pos ⟨rfl, hne⟩]

theorem applyWealthTax_run (f : Int → Int) (g i : Nat) (s : EconState) :
    applyWealthTax f g i false s
      = ({ s with
            accounts := s.accounts.map (taxAccount f g),
            positions := s.positions.map (taxPosition f g),
            ledger := s.ledger ++
              (cashEvents f g i s.accounts ++ stockEvents f g i s.positions) },
          .ok (taxAffected f g s, taxTotal f g s)) := by
  unfold applyWealthTax
  rw [if_neg (fun hc => Bool.false_ne_true hc.1)]

theorem applyWealthTax_noEvents (f : Int → Int) (g i : Nat) (fl : Bool) (s : EconState)
    (hevs : cashEvents f g i s.accounts ++ stockEvents f g i s.positions = []) :
    applyWealthTax f g i fl s
      = ({ s with
            accounts := s.accounts.map (taxAccount f g),
            positions := s.positions.map (taxPosition f g),
            ledger := s.ledger ++
              (cashEvents f g i s.accounts ++ stockEvents f g i s.positions) },
          .ok (taxAffected f g s, taxTotal f g s)) := by
  unfold applyWealthTax
  rw [if_neg (fun hc => hc.2 hevs)]

theorem mintSum_cashEvents (f : Int → Int) (g g' i : Nat) (l : List Account) :
    mintSum g' (cashEvents f g i l) = 0 := by
  rw [cashEvents]
  exact mintSum_eventMap g g' i EventType.BURN "WEALTH_TAX" _ _ _
    (fun hc => EventType.noConfusion hc)

theorem mintSum_stockEvents (f : Int → Int) (g g' i : Nat) (l : List Position) :
    mintSum g' (stockEvents f g i l) = 0 := by
  rw [stockEvents]
  exact mintSum_eventMap g g' i EventType.BURN "WEALTH_TAX_COLLATERAL" _ _ _
    (fun hc => EventType.noConfusion hc)

theorem burnSumCash_cashEvents (f : Int → Int) (g g' i : Nat) (l : List Account) :
    burnSumCash g' (cashEvents f g i l) = if g = g' then cashBurned f g l else 0 := by
  rw [cashEvents]
  rw [burnSumCash_eventMap g g' i "WEALTH_TAX" _ _ _ (by decide)]
  rfl

theorem burnSumCash_stockEvents (f : Int → Int) (g g' i : Nat) (l : List Position) :
    burnSumCash g' (stockEvents f g i l) = 0 := by
  rw [stockEvents]
  exact burnSumCash_collateralMap g g' i _ _ _

/-! ## Conservation -/

theorem conserves_afterTax (f : Int → Int) (g i : Nat) (s : EconState)
    (h : conserves s) :
    conserves ({ s with
        accounts := s.accounts.map (taxAccount f g),
        positions := s.positions.map (taxPosition f g),
        ledger := s.ledger ++
          (cashEvents f g i s.accounts ++ stockEvents f g i s.positions) }) := by
  intro g'
  show sumBalances g' (s.accounts.map (taxAccount f g)) = _
  rw [sumBalances_taxMap, h g']
  show _ = mintSum g' (s.ledger ++ (cashEvents f g i s.accounts ++ stockEvents f g i s.positions))
      - burnSumCash g' (s.ledger ++ (cashEvents f g i s.accounts ++ stockEvents f g i s.positions))
  rw [mintSum_append, burnSumCash_append, mintSum_append, burnSumCash_append,
    mintSum_cashEvents, mintSum_stockEvents, burnSumCash_cashEvents, burnSumCash_stockEvents]
  by_cases hgg : g' = g
  · rw [if_pos hgg, if_pos hgg.symm]
    ring
  · rw [if_neg hgg, if_neg (fun hc => hgg hc.symm)]
    ring

theorem conserves_apply (s : EconState) (op : EconOp) (hop : op.wf) (h : conserves s) :
    conserves (op.apply s) := by
  cases op with
  | mint u g a r i fl =>
      cases fl with
      | true => exact h
      | false =>
          intro g'
          show sumBalances g' (mintCurrency u g a r i false s).1.accounts
            = mintSum g' (mintCurrency u g a r i false s).1.ledger
              - burnSumCash g' (mintCurrency u g a r i false s).1.ledger
          rw [mintCurrency_run]
          show sumBalances g' (upsertAdd u g a s.accounts)
            = mintSum g' (s.ledger ++ [⟨g, .MINT, r, SYSTEM_USER_ID, u, a, i.getD u⟩])
              - burnSumCash g' (s.ledger ++ [⟨g, .MINT, r, SYSTEM_USER_ID, u, a, i.getD u⟩])
          rw [sumBalances_upsertAdd, mintSum_append, burnSumCash_append, mintSum_mint_single,
            burnSumCash_mint_single, h g']
          by_cases hgg : g' = g
          · simp only [if_pos hgg]
            ring
          · simp only [if_neg hgg]
            ring
  | burn u g a r i fl =>
      cases hfind : findAccount u g s.accounts with
      | none =>
          show conserves (burnCurrency u g a r i fl s).1
          rw [burnCurrency_absent u g a r i fl s hfind]
          exact h
      | some acc =>
          by_cases hle : a ≤ acc.currency
          · cases fl with
            | true =>
                show conserves (burnCurrency u g a r i true s).1
                rw [burnCurrency_fault u g a r i s acc hfind hle]
                exact h
            | false =>
                intro g'
                show sumBalances g' (burnCurrency u g a r i false s).1.accounts
                  = mintSum g' (burnCurrency u g a r i false s).1.ledger
                    - burnSumCash g' (burnCurrency u g a r i false s).1.ledger
                rw [burnCurrency_run u g a r i s acc hfind hle]
                show sumBalances g' (setCurrency u g (acc.currency - a) s.accounts)
                  = mintSum g' (s.ledger ++ [⟨g, .BURN, r, u, SYSTEM_USER_ID, a, i⟩])
                    - burnSumCash g' (s.ledger ++ [⟨g, .BURN, r, u, SYSTEM_USER_ID, a, i⟩])
                rw [sumBalances_setCurrency g' u g _ s.accounts acc hfind, mintSum_append,
                  burnSumCash_append, mintSum_burn_single,
                  burnSumCash_burn_single g g' r u SYSTEM_USER_ID a i hop.2, h g']
                by_cases hgg : g' = g
                · simp only [if_pos hgg]
                  ring
                · simp only [if_neg hgg]
                  ring
          · show conserves (burnCurrency u g a r i fl s).1
            rw [burnCurrency_insufficient u g a r i fl s acc hfind hle]
            exact h
  | transfer sd rc g a fl =>
      cases hfind : findAccount sd g s.accounts with
      | none =>
          show conserves (transferCurrency sd rc g a fl s).1
          rw [transferCurrency_absent sd rc g a fl s hfind]
          exact h
      | some acc =>
          by_cases hle : a ≤ acc.currency
          · cases fl with
            | true =>
                show conserves (transferCurrency sd rc g a true s).1
                rw [transferCurrency_fault sd rc g a s acc hfind hle]
                exact h
            | false =>
                intro g'
                show sumBalances g' (transferCurrency sd rc g a false s).1.accounts
                  = mintSum g' (transferCurrency sd rc g a false s).1.ledger
                    - burnSumCash g' (transferCurrency sd rc g a false s).1.ledger
                rw [transferCurrency_run sd rc g a s acc hfind hle]
                show sumBalances g'
                    (upsertAdd rc g a (setCurrency sd g (acc.currency - a) s.accounts))
                  = mintSum g' (s.ledger ++ [⟨g, .TRANSFER, "P2P_TRANSFER", sd, rc, a, sd⟩])
                    - burnSumCash g'
                        (s.ledger ++ [⟨g, .TRANSFER, "P2P_TRANSFER", sd, rc, a, sd⟩])
                rw [sumBalances_upsertAdd, sumBalances_setCurrency g' sd g _ s.accounts acc hfind,
                  mintSum_append, burnSumCash_append, mintSum_transfer_single,
                  burnSumCash_transfer_single, h g']
                by_cases hgg : g' = g
                · simp only [if_pos hgg]
                  ring
                · simp only [if_neg hgg]
                  ring
          · show conserves (transferCurrency sd rc g a fl s).1
            rw [transferCurrency_insufficient sd rc g a fl s acc hfind hle]
            exact h
  | setBalance u g nb r i fl =>
      by_cases hz : nb - getBalance u g s.accounts = 0
      · intro g'
        show sumBalances g' (setCurrencyBalanceAndLog u g nb r i fl s).1.accounts
          = mintSum g' (setCurrencyBalanceAndLog u g nb r i fl s).1.ledger
            - burnSumCash g' (setCurrencyBalanceAndLog u g nb r i fl s).1.ledger
        rw [setCurrencyBalanceAndLog_zero u g nb r i fl s hz]
        show sumBalances g' (upsertSet u g nb s.accounts)
          = mintSum g' s.ledger - burnSumCash g' s.ledger
        rw [sumBalances_upsertSet, h g']
        by_cases hgg : g' = g
        · rw [if_pos hgg, hz]
          ring
        · rw [if_neg hgg]
          ring
      · cases fl with
        | true =>
            show conserves (setCurrencyBalanceAndLog u g nb r i true s).1
            rw [setCurrencyBalanceAndLog_fault u g nb r i s hz]
            exact h
        | false =>
            rcases lt_or_gt_of_ne hz with hneg | hpos
            · intro g'
              show sumBalances g' (setCurrencyBalanceAndLog u g nb r i false s).1.accounts
                = mintSum g' (setCurrencyBalanceAndLog u g nb r i false s).1.ledger
                  - burnSumCash g' (setCurrencyBalanceAndLog u g nb r i false s).1.ledger
              rw [setCurrencyBalanceAndLog_burn u g nb r i s hneg]
              show sumBalances g' (upsertSet u g nb s.accounts)
                = mintSum g' (s.ledger ++
                    [⟨g, .BURN, r, u, SYSTEM_USER_ID, |nb - getBalance u g s.accounts|, i⟩])
                  - burnSumCash g' (s.ledger ++
                    [⟨g, .BURN, r, u, SYSTEM_USER_ID, |nb - getBalance u g s.accounts|, i⟩])
              rw [sumBalances_upsertSet, mintSum_append, burnSumCash_append,
                mintSum_burn_single,
                burnSumCash_burn_single g g' r u SYSTEM_USER_ID _ i hop.2, h g']
              by_cases hgg : g' = g
              · simp only [if_pos hgg, abs_of_neg hneg]
                ring
              · simp only [if_neg hgg]
                ring
            · intro g'
              show sumBalances g' (setCurrencyBalanceAndLog u g nb r i false s).1.accounts
                = mintSum g' (setCurrencyBalanceAndLog u g nb r i false s).1.ledger
                  - burnSumCash g' (setCurrencyBalanceAndLog u g nb r i false s).1.ledger
              rw [setCurrencyBalanceAndLog_mint u g nb r i s hpos]
              show sumBalances g' (upsertSet u g nb s.accounts)
                = mintSum g' (s.ledger ++
                    [⟨g, .MINT, r, SYSTEM_USER_ID, u, nb - getBalance u g s.accounts, i⟩])
                  - burnSumCash g' (s.ledger ++
                    [⟨g, .MINT, r, SYSTEM_USER_ID, u, nb - getBalance u g s.accounts, i⟩])
              rw [sumBalances_upsertSet, mintSum_append, burnSumCash_append,
                mintSum_mint_single, burnSumCash_mint_single, h g']
              by_cases hgg : g' = g
              · simp only [if_pos hgg]
                ring
              · simp only [if_neg hgg]
                ring
  | wealthTax g f i fl =>
      cases fl with
      | false =>
          show conserves (applyWealthTax f g i false s).1
          rw [applyWealthTax_run]
          exact conserves_afterTax f g i s h
      | true =>
          by_cases hevs : cashEvents f g i s.accounts ++ stockEvents f g i s.positions = []
          · show conserves (applyWealthTax f g i true s).1
            rw [applyWealthTax_noEvents f g i true s hevs]
            exact conserves_afterTax f g i s h
          · show conserves (applyWealthTax f g i true s).1
            rw [applyWealthTax_fault f g i s hevs]
            exact h

theorem conserves_runOps (s : EconState) (ops : List EconOp) (h : conserves s)
    (hwf : ∀ op ∈ ops, op.wf) : conserves (runOps s ops) := by
  induction ops generalizing s with
  | nil => exact h
  | cons op rest ih =>
      exact ih (op.apply s)
        (conserves_apply s op (hwf op (List.mem_cons_self op rest)) h)
        (fun op' hop' => hwf op' (List.mem_cons_of_mem op hop'))

theorem conserves_start (ps : List Position) : conserves (startState ps) := by
  intro g'
  show sumBalances g' [] = mintSum g' [] - burnSumCash g' []
  rw [sumBalances_nil, mintSum_nil, burnSumCash_nil]
  ring

/-! ## Non-negativity -/

theorem nonneg_upsertAdd (u g : Nat) (amt : Int) (l : List Account)
    (hamt : 0 ≤ amt) (h : ∀ a ∈ l, 0 ≤ a.currency) :
    ∀ a ∈ upsertAdd u g amt l, 0 ≤ a.currency := by
  induction l with
  | nil =>
      intro a ha
      rw [upsertAdd, List.mem_singleton] at ha
      subst ha
      exact hamt
  | cons b rest ih =>
      intro a ha
      rw [upsertAdd] at ha
      by_cases hb : b.user = u ∧ b.guild = g
      · rw [if_pos hb] at ha
        rcases List.mem_cons.mp ha with rfl | hmem
        · show 0 ≤ b.currency + amt
          have := h b (List.mem_cons_self b rest)
          omega
        · exact h a (List.mem_cons_of_mem b hmem)
      · rw [if_neg hb] at ha
        rcases List.mem_cons.mp ha with rfl | hmem
        · exact h a (List.mem_cons_self a rest)
        · exact ih (fun x hx => h x (List.mem_cons_of_mem b hx)) a hmem

theorem nonneg_upsertSet (u g : Nat) (v : Int) (l : List Account)
    (hv : 0 ≤ v) (h : ∀ a ∈ l, 0 ≤ a.currency) :
    ∀ a ∈ upsertSet u g v l, 0 ≤ a.currency := by
  induction l with
  | nil =>
      intro a ha
      rw [upsertSet, List.mem_singleton] at ha
      subst ha
      exact hv
  | cons b rest ih =>
      intro a ha
      rw [upsertSet] at ha
      by_cases hb : b.user = u ∧ b.guild = g
      · rw [if_pos hb] at ha
        rcases List.mem_cons.mp ha with rfl | hmem
        · exact hv
        · exact h a (List.mem_cons_of_mem b hmem)
      · rw [if_neg hb] at ha
        rcases List.mem_cons.mp ha with rfl | hmem
        · exact h a (List.mem_cons_self a rest)
        · exact ih (fun x hx => h x (List.mem_cons_of_mem b hx)) a hmem

theorem nonneg_setCurrency (u g : Nat) (v : Int) (l : List Account)
    (hv : 0 ≤ v) (h : ∀ a ∈ l, 0 ≤ a.currency) :
    ∀ a ∈ setCurrency u g v l, 0 ≤ a.currency := by
  induction l with
  | nil =>
      intro a ha
      cases ha
  | cons b rest ih =>
      intro a ha
      rw [setCurrency] at ha
      by_cases hb : b.user = u ∧ b.guild = g
      · rw [if_pos hb] at ha
        rcases List.mem_cons.mp ha with rfl | hmem
        · exact hv
        · exact h a (List.mem_cons_of_mem b hmem)
      · rw [if_neg hb] at ha
        rcases List.mem_cons.mp ha with rfl | hmem
        · exact h a (List.mem_cons_self a rest)
        · exact ih (fun x hx => h x (List.mem_cons_of_mem b hx)) a hmem

theorem nonneg_taxMap (f : Int → Int) (g : Nat) (l : List Account)
    (hf : ∀ b : Int, 10 < b → 0 ≤ f b) (h : ∀ a ∈ l, 0 ≤ a.currency) :
    ∀ a ∈ l.map (taxAccount f g), 0 ≤ a.currency := by
  intro a ha
  rcases List.mem_map.mp ha with ⟨b, hmem, rfl⟩
  exact taxAccount_currency_nonneg f g b hf (h b hmem)

theorem nonneg_apply (s : EconState) (op : EconOp) (hop : op.wf)
    (h : ∀ a ∈ s.accounts, 0 ≤ a.currency) :
    ∀ a ∈ (op.apply s).accounts, 0 ≤ a.currency := by
  cases op with
  | mint u g a r i fl =>
      cases fl with
      | true => exact h
      | false =>
          show ∀ a' ∈ (mintCurrency u g a r i false s).1.accounts, 0 ≤ a'.currency
          rw [mintCurrency_run]
          exact nonneg_upsertAdd u g a s.accounts (le_of_lt hop) h
  | burn u g a r i fl =>
      cases hfind : findAccount u g s.accounts with
      | none =>
          show ∀ a' ∈ (burnCurrency u g a r i fl s).1.accounts, 0 ≤ a'.currency
          rw [burnCurrency_absent u g a r i fl s hfind]
          exact h
      | some acc =>
          by_cases hle : a ≤ acc.currency
          · cases fl with
            | true =>
                show ∀ a' ∈ (burnCurrency u g a r i true s).1.accounts, 0 ≤ a'.currency
                rw [burnCurrency_fault u g a r i s acc hfind hle]
                exact h
            | false =>
                show ∀ a' ∈ (burnCurrency u g a r i false s).1.accounts, 0 ≤ a'.currency
                rw [burnCurrency_run u g a r i s acc hfind hle]
                exact nonneg_setCurrency u g (acc.currency - a) s.accounts (by omega) h
          · show ∀ a' ∈ (burnCurrency u g a r i fl s).1.accounts, 0 ≤ a'.currency
            rw [burnCurrency_insufficient u g a r i fl s acc hfind hle]
            exact h
  | transfer sd rc g a fl =>
      cases hfind : findAccount sd g s.accounts with
      | none =>
          show ∀ a' ∈ (transferCurrency sd rc g a fl s).1.accounts, 0 ≤ a'.currency
          rw [transferCurrency_absent sd rc g a fl s hfind]
          exact h
      | some acc =>
          by_cases hle : a ≤ acc.currency
          · cases fl with
            | true =>
                show ∀ a' ∈ (transferCurrency sd rc g a true s).1.accounts, 0 ≤ a'.currency
                rw [transferCurrency_fault sd rc g a s acc hfind hle]
                exact h
            | false =>
                show ∀ a' ∈ (transferCurrency sd rc g a false s).1.accounts, 0 ≤ a'.currency
                rw [transferCurrency_run sd rc g a s acc hfind hle]
                exact nonneg_upsertAdd rc g a _ (le_of_lt hop)
                  (nonneg_setCurrency sd g (acc.currency - a) s.accounts (by omega) h)
          · show ∀ a' ∈ (transferCurrency sd rc g a fl s).1.accounts, 0 ≤ a'.currency
            rw [transferCurrency_insufficient sd rc g a fl s acc hfind hle]
            exact h
  | setBalance u g nb r i fl =>
      by_cases hz : nb - getBalance u g s.accounts = 0
      · show ∀ a' ∈ (setCurrencyBalanceAndLog u g nb r i fl s).1.accounts, 0 ≤ a'.currency
        rw [setCurrencyBalanceAndLog_zero u g nb r i fl s hz]
        exact nonneg_upsertSet u g nb s.accounts hop.1 h
      · cases fl with
        | true =>
            show ∀ a' ∈ (setCurrencyBalanceAndLog u g nb r i true s).1.accounts, 0 ≤ a'.currency
            rw [setCurrencyBalanceAndLog_fault u g nb r i s hz]
            exact h
        | false =>
            rcases lt_or_gt_of_ne hz with hneg | hpos
            · show ∀ a' ∈ (setCurrencyBalanceAndLog u g nb r i false s).1.accounts, 0 ≤ a'.currency
              rw [setCurrencyBalanceAndLog_burn u g nb r i s hneg]
              exact nonneg_upsertSet u g nb s.accounts hop.1 h
            · show ∀ a' ∈ (setCurrencyBalanceAndLog u g nb r i false s).1.accounts, 0 ≤ a'.currency
              rw [setCurrencyBalanceAndLog_mint u g nb r i s hpos]
              exact nonneg_upsertSet u g nb s.accounts hop.1 h
  | wealthTax g f i fl =>
      cases fl with
      | false =>
          show ∀ a' ∈ (applyWealthTax f g i false s).1.accounts, 0 ≤ a'.currency
          rw [applyWealthTax_run]
          exact nonneg_taxMap f g s.accounts hop h
      | true =>
          by_cases hevs : cashEvents f g i s.accounts ++ stockEvents f g i s.positions = []
          · show ∀ a' ∈ (applyWealthTax f g i true s).1.accounts, 0 ≤ a'.currency
            rw [applyWealthTax_noEvents f g i true s hevs]
            exact nonneg_taxMap f g s.accounts hop h
          · show ∀ a' ∈ (applyWealthTax f g i true s).1.accounts, 0 ≤ a'.currency
            rw [applyWealthTax_fault f g i s hevs]
            exact h

theorem nonneg_runOps (s : EconState) (ops : List EconOp)
    (h : ∀ a ∈ s.accounts, 0 ≤ a.currency) (hwf : ∀ op ∈ ops, op.wf) :
    ∀ a ∈ (runOps s ops).accounts, 0 ≤ a.currency := by
  induction ops generalizing s with
  | nil => exact h
  | cons op rest ih =>
      exact ih (op.apply s)
        (nonneg_apply s op (hwf op (List.mem_cons_self op rest)) h)
        (fun op' hop' => hwf op' (List.mem_cons_of_mem op hop'))

/-! ## Claim C1: conservation -/

/-- C1, counterexample to the claim as stated: running a single
`apply_wealth_tax` pass over a guild that holds one leveraged position
(collateral 1000, notional 1000) appends a BURN ledger event of amount 498
(reason WEALTH_TAX_COLLATERAL) while no account balance changes, so the
guild's balance total (0) no longer equals MINT minus BURN replayed from
the ledger (−498). -/
theorem conservation_claim_cex :
    ¬ (sumBalances exGuild (runOps (startState [exPosition]) exTaxOps).accounts
        = mintSum exGuild (runOps (startState [exPosition]) exTaxOps).ledger
          - burnSumAll exGuild (runOps (startState [exPosition]) exTaxOps).ledger) := by
  decide

/-- C1 (amended): for every guild and every sequence of well-typed
operations (mint_currency, burn_currency, transfer_currency,
set_currency_balance_and_log, apply_wealth_tax) replayed from an empty
balance table and empty ledger, at every point the sum of all account
balances in the guild equals the sum of MINT amounts minus the sum of BURN
amounts logged for the guild, once the WEALTH_TAX_COLLATERAL burn events
— which debit the external position store, not any account — are excluded
from the replay. -/
theorem conservation_invariant (ps : List Position) (ops : List EconOp)
    (hwf : ∀ op ∈ ops, op.wf) :
    ∀ g : Nat, sumBalances g (runOps (startState ps) ops).accounts
      = mintSum g (runOps (startState ps) ops).ledger
        - burnSumCash g (runOps (startState ps) ops).ledger :=
  conserves_runOps (startState ps) ops (conserves_start ps) hwf

/-- C1 witness: the amended conservation law evaluated on a concrete
five-operation replay (mint 100, transfer 40, burn 10, set-balance 30,
wealth tax) over a guild that also holds a taxable position. -/
theorem conservation_invariant_witness :
    (∀ op ∈ exOps, op.wf) ∧
      sumBalances exGuild (runOps (startState [exPosition]) exOps).accounts
        = mintSum exGuild (runOps (startState [exPosition]) exOps).ledger
          - burnSumCash exGuild (runOps (startState [exPosition]) exOps).ledger := by
  have hwf : ∀ op ∈ exOps, op.wf := by
    intro op hop
    simp only [exOps, List.mem_cons, List.not_mem_nil, or_false] at hop
    rcases hop with rfl | rfl | rfl | rfl | rfl
    · exact (by decide : (0:Int) < 100)
    · exact (by decide : (0:Int) < 40)
    · exact ⟨by decide, by decide⟩
    · exact ⟨by decide, by decide⟩
    · intro b hb
      show (0:Int) ≤ 502
      decide
  exact ⟨hwf, conservation_invariant [exPosition] exOps hwf exGuild⟩

/-! ## Claim C2: non-negativity -/

/-- C2: for every sequence of well-typed operations of the ledger
subsystem replayed from an empty balance table, every resulting account
balance satisfies the storage layer's `CHECK(currency >= 0)` constraint —
no balance is ever negative.  (The burn path only decrements when the
single-statement guard `currency >= amount` holds, which is what makes the
step case for `burn_currency` go through.) -/
theorem balances_nonneg (ps : List Position) (ops : List EconOp)
    (hwf : ∀ op ∈ ops, op.wf) :
    ∀ a ∈ (runOps (startState ps) ops).accounts, currencyCheck a.currency = true := by
  intro a ha
  rw [currencyCheck, decide_eq_true_eq]
  exact nonneg_runOps (startState ps) ops (fun x hx => by cases hx) hwf a ha

/-- C2 witness: the non-negativity invariant evaluated on a concrete
account after a concrete five-operation replay. -/
theorem balances_nonneg_witness :
    (∀ op ∈ exOps, op.wf) ∧
      ((⟨exUser, exGuild, 30, 0, 0⟩ : Account)
          ∈ (runOps (startState [exPosition]) exOps).accounts) ∧
      currencyCheck ((⟨exUser, exGuild, 30, 0, 0⟩ : Account)).currency = true := by
  have hwf : ∀ op ∈ exOps, op.wf := by
    intro op hop
    simp only [exOps, List.mem_cons, List.not_mem_nil, or_false] at hop
    rcases hop with rfl | rfl | rfl | rfl | rfl
    · exact (by decide : (0:Int) < 100)
    · exact (by decide : (0:Int) < 40)
    · exact ⟨by decide, by decide⟩
    · exact ⟨by decide, by decide⟩
    · intro b hb
      show (0:Int) ≤ 502
      decide
  have hmem : (⟨exUser, exGuild, 30, 0, 0⟩ : Account)
      ∈ (runOps (startState [exPosition]) exOps).accounts := by decide
  exact ⟨hwf, hmem, balances_nonneg [exPosition] exOps hwf _ hmem⟩

/-! ## Claim C3: burn semantics -/

/-- C3: for every state, user, guild and amount > 0, `burn_currency`
(fault-free) decrements the balance by the amount and appends exactly one
BURN event (sender the user, receiver SYSTEM) returning the new balance if
and only if the current balance (0 when the account is absent) is at least
the amount; otherwise it returns none and leaves balances, positions and
ledger unchanged. -/
theorem burn_currency_spec (s : EconState) (u g : Nat) (amt : Int) (r : String) (i : Nat)
    (hamt : 0 < amt) :
    ((burnCurrency u g amt r i false s).2
        = .ok (some (getBalance u g s.accounts - amt))
      ↔ amt ≤ getBalance u g s.accounts)
    ∧ (amt ≤ getBalance u g s.accounts →
        (burnCurrency u g amt r i false s).1.accounts
            = setCurrency u g (getBalance u g s.accounts - amt) s.accounts
        ∧ (burnCurrency u g amt r i false s).1.ledger
            = s.ledger ++ [⟨g, .BURN, r, u, SYSTEM_USER_ID, amt, i⟩]
        ∧ (burnCurrency u g amt r i false s).1.positions = s.positions
        ∧ getBalance u g (burnCurrency u g amt r i false s).1.accounts
            = getBalance u g s.accounts - amt)
    ∧ (¬ amt ≤ getBalance u g s.accounts →
        (burnCurrency u g amt r i false s).1 = s
        ∧ (burnCurrency u g amt r i false s).2 = .ok none) := by
  cases hfind : findAccount u g s.accounts with
  | none =>
      have hgb : getBalance u g s.accounts = 0 := by
        rw [getBalance, hfind]
        rfl
      rw [burnCurrency_absent u g amt r i false s hfind, hgb]
      refine ⟨⟨fun hc => ?_, fun hc => absurd hc (by omega)⟩,
        fun hc => absurd hc (by omega), fun _ => ⟨rfl, rfl⟩⟩
      simp at hc
  | some acc =>
      have hgb : getBalance u g s.accounts = acc.currency :=
        findAccount_currency u g s.accounts acc hfind
      by_cases hle : amt ≤ acc.currency
      · rw [burnCurrency_run u g amt r i s acc hfind hle, hgb]
        exact ⟨⟨fun _ => hle, fun _ => rfl⟩,
          fun _ => ⟨rfl, rfl, rfl, getBalance_setCurrency_self u g _ s.accounts acc hfind⟩,
          fun hc => absurd hle hc⟩
      · rw [burnCurrency_insufficient u g amt r i false s acc hfind hle, hgb]
        refine ⟨⟨fun hc => ?_, fun hc => absurd hc hle⟩,
          fun hc => absurd hc hle, fun _ => ⟨rfl, rfl⟩⟩
        simp at hc

/-- C3 witness: on a balance of 100, burning 40 returns the new balance
60, while burning 150 returns none and leaves the state unchanged. -/
theorem burn_currency_spec_witness :
    (0:Int) < 40
    ∧ (burnCurrency exUser exGuild 40 "GAME" exUser false exState100).2
        = .ok (some (getBalance exUser exGuild exState100.accounts - 40))
    ∧ (burnCurrency exUser exGuild 150 "GAME" exUser false exState100).1 = exState100
    ∧ (burnCurrency exUser exGuild 150 "GAME" exUser false exState100).2 = .ok none := by
  have h1 := burn_currency_spec exState100 exUser exGuild 40 "GAME" exUser (by decide)
  have h2 := burn_currency_spec exState100 exUser exGuild 150 "GAME" exUser (by decide)
  exact ⟨by decide, h1.1.mpr (by decide), (h2.2.2 (by decide)).1, (h2.2.2 (by decide)).2⟩

/-! ## Claim C4: storage-fault semantics -/

/-- C4, counterexample to the claim as stated: a storage fault during the
`transfer_currency` transaction is caught and converted into the normal
return value `false` — exactly the value an insufficient-funds transfer
returns — instead of being re-raised: with sender balance 100, a faulting
transfer of 40 and a fault-free transfer of 200 produce the identical
observable outcome `(unchanged state, false)`. -/
theorem storage_fault_claim_cex :
    transferCurrency exUser exUser2 exGuild 40 true exState100 = (exState100, false)
    ∧ transferCurrency exUser exUser2 exGuild 200 false exState100 = (exState100, false) := by
  decide

/-- C4 (amended): a storage fault during the transaction rolls back both
the balance write and the ledger write for all four orchestrator
operations, and `mint_currency`, `burn_currency` and
`set_currency_balance_and_log` re-raise it as a fault distinguishable
from an insufficient-funds result — but `transfer_currency` catches the
exception and returns `false`, indistinguishable from its
insufficient-funds return. -/
theorem storage_fault_semantics (s : EconState) (u rc g : Nat) (amt nb : Int)
    (r : String) (i : Nat) (io : Option Nat) (hamt : 0 < amt) :
    mintCurrency u g amt r io true s = (s, .error ())
    ∧ (amt ≤ getBalance u g s.accounts →
        burnCurrency u g amt r i true s = (s, .error ()))
    ∧ (nb - getBalance u g s.accounts ≠ 0 →
        setCurrencyBalanceAndLog u g nb r i true s = (s, .error ()))
    ∧ (amt ≤ getBalance u g s.accounts →
        transferCurrency u rc g amt true s = (s, false))
    ∧ (¬ amt ≤ getBalance u g s.accounts →
        transferCurrency u rc g amt false s = (s, false)) := by
  refine ⟨mintCurrency_fault u g amt r io s, fun hle => ?_, fun hz => ?_, fun hle => ?_,
    fun hlt => ?_⟩
  · rcases findAccount_of_le_getBalance u g s.accounts amt hamt hle with ⟨acc, hfind, hacc⟩
    exact burnCurrency_fault u g amt r i s acc hfind (by omega)
  · exact setCurrencyBalanceAndLog_fault u g nb r i s hz
  · rcases findAccount_of_le_getBalance u g s.accounts amt hamt hle with ⟨acc, hfind, hacc⟩
    exact transferCurrency_fault u rc g amt s acc hfind (by omega)
  · cases hfind : findAccount u g s.accounts with
    | none => exact transferCurrency_absent u rc g amt false s hfind
    | some acc =>
        have hacc := findAccount_currency u g s.accounts acc hfind
        exact transferCurrency_insufficient u rc g amt false s acc hfind (by omega)

/-- C4 witness: the fault semantics evaluated on a concrete state with
balance 100 and amount 40. -/
theorem storage_fault_semantics_witness :
    (0:Int) < 40
    ∧ mintCurrency exUser exGuild 40 "GAME" (some exAdmin) true exState100
        = (exState100, .error ())
    ∧ burnCurrency exUser exGuild 40 "GAME" exAdmin true exState100 = (exState100, .error ())
    ∧ setCurrencyBalanceAndLog exUser exGuild 60 "GAME" exAdmin true exState100
        = (exState100, .error ())
    ∧ transferCurrency exUser exUser2 exGuild 40 true exState100 = (exState100, false) := by
  have h := storage_fault_semantics exState100 exUser exUser2 exGuild 40 60 "GAME" exAdmin
    (some exAdmin) (by decide)
  exact ⟨by decide, h.1, h.2.1 (by decide), h.2.2.1 (by decide), h.2.2.2.1 (by decide)⟩

/-! ## Claim C5: transfer semantics -/

/-- C5: for every state, sender, receiver, guild and amount > 0,
`transfer_currency` (fault-free) returns true exactly when the sender's
balance covers the amount; on success it decrements the sender,
unconditionally upserts the receiver (creating the account at 0 if
absent), and appends exactly one TRANSFER event with sender, receiver and
amount; on insufficient funds it returns false with no effect. -/
theorem transfer_currency_spec (s : EconState) (sd rc g : Nat) (amt : Int)
    (hamt : 0 < amt) :
    ((transferCurrency sd rc g amt false s).2 = true
      ↔ amt ≤ getBalance sd g s.accounts)
    ∧ (amt ≤ getBalance sd g s.accounts →
        (transferCurrency sd rc g amt false s).1.accounts
            = upsertAdd rc g amt
                (setCurrency sd g (getBalance sd g s.accounts - amt) s.accounts)
        ∧ (transferCurrency sd rc g amt false s).1.ledger
            = s.ledger ++ [⟨g, .TRANSFER, "P2P_TRANSFER", sd, rc, amt, sd⟩]
        ∧ (transferCurrency sd rc g amt false s).1.positions = s.positions
        ∧ (sd ≠ rc →
            getBalance sd g (transferCurrency sd rc g amt false s).1.accounts
              = getBalance sd g s.accounts - amt
            ∧ getBalance rc g (transferCurrency sd rc g amt false s).1.accounts
              = getBalance rc g s.accounts + amt))
    ∧ (¬ amt ≤ getBalance sd g s.accounts →
        (transferCurrency sd rc g amt false s).1 = s
        ∧ (transferCurrency sd rc g amt false s).2 = false) := by
  cases hfind : findAccount sd g s.accounts with
  | none =>
      have hgb : getBalance sd g s.accounts = 0 := by
        rw [getBalance, hfind]
        rfl
      rw [transferCurrency_absent sd rc g amt false s hfind, hgb]
      refine ⟨⟨fun hc => absurd hc (by simp), fun hc => absurd hc (by omega)⟩,
        fun hc => absurd hc (by omega), fun _ => ⟨rfl, rfl⟩⟩
  | some acc =>
      have hgb : getBalance sd g s.accounts = acc.currency :=
        findAccount_currency sd g s.accounts acc hfind
      by_cases hle : amt ≤ acc.currency
      · rw [transferCurrency_run sd rc g amt s acc hfind hle, hgb]
        refine ⟨⟨fun _ => hle, fun _ => rfl⟩, fun _ => ⟨rfl, rfl, rfl, fun hne => ⟨?_, ?_⟩⟩,
          fun hc => absurd hle hc⟩
        · rw [getBalance_upsertAdd_ne rc g sd g amt _ (fun hc => hne hc.1)]
          exact getBalance_setCurrency_self sd g _ s.accounts acc hfind
        · rw [getBalance_upsertAdd_self rc g amt _,
            getBalance_setCurrency_ne sd g rc g _ s.accounts (fun hc => hne hc.1.symm)]
      · rw [transferCurrency_insufficient sd rc g amt false s acc hfind hle, hgb]
        exact ⟨⟨fun hc => absurd hc (by simp), fun hc => absurd hc hle⟩,
          fun hc => absurd hc hle, fun _ => ⟨rfl, rfl⟩⟩

/-- C5 witness: transferring 40 from a balance of 100 to an absent
receiver yields balances 60 and 40 and returns true. -/
theorem transfer_currency_spec_witness :
    (0:Int) < 40
    ∧ (transferCurrency exUser exUser2 exGuild 40 false exState100).2 = true
    ∧ getBalance exUser exGuild (transferCurrency exUser exUser2 exGuild 40 false
        exState100).1.accounts = 60
    ∧ getBalance exUser2 exGuild (transferCurrency exUser exUser2 exGuild 40 false
        exState100).1.accounts = 40 := by
  have h := transfer_currency_spec exState100 exUser exUser2 exGuild 40 (by decide)
  have hb := (h.2.1 (by decide)).2.2.2 (by decide)
  refine ⟨by decide, h.1.mpr (by decide), ?_, ?_⟩
  · rw [hb.1]
    decide
  · rw [hb.2]
    decide

/-! ## Claim C8: set-balance semantics -/

/-- C8: for every state, user, guild and new_balance ≥ 0,
`set_currency_balance_and_log` (fault-free) writes new_balance and, with
delta = new_balance − current (0 for an absent account), appends exactly
one MINT of delta when delta > 0, exactly one BURN of `|delta|` when
delta < 0, and no ledger row when delta = 0; calling it with the current
balance leaves the balance unchanged and the ledger untouched. -/
theorem set_balance_spec (s : EconState) (u g : Nat) (nb : Int) (r : String) (i : Nat)
    (hnb : 0 ≤ nb) :
    (setCurrencyBalanceAndLog u g nb r i false s).2 = .ok ()
    ∧ (setCurrencyBalanceAndLog u g nb r i false s).1.accounts
        = upsertSet u g nb s.accounts
    ∧ getBalance u g (setCurrencyBalanceAndLog u g nb r i false s).1.accounts = nb
    ∧ (setCurrencyBalanceAndLog u g nb r i false s).1.positions = s.positions
    ∧ (0 < nb - getBalance u g s.accounts →
        (setCurrencyBalanceAndLog u g nb r i false s).1.ledger
          = s.ledger ++
              [⟨g, .MINT, r, SYSTEM_USER_ID, u, nb - getBalance u g s.accounts, i⟩])
    ∧ (nb - getBalance u g s.accounts < 0 →
        (setCurrencyBalanceAndLog u g nb r i false s).1.ledger
          = s.ledger ++
              [⟨g, .BURN, r, u, SYSTEM_USER_ID, |nb - getBalance u g s.accounts|, i⟩])
    ∧ (nb = getBalance u g s.accounts →
        (setCurrencyBalanceAndLog u g nb r i false s).1.ledger = s.ledger
        ∧ getBalance u g (setCurrencyBalanceAndLog u g nb r i false s).1.accounts
            = getBalance u g s.accounts) := by
  rcases lt_trichotomy (nb - getBalance u g s.accounts) 0 with hneg | hzero | hpos
  · rw [setCurrencyBalanceAndLog_burn u g nb r i s hneg]
    exact ⟨rfl, rfl, getBalance_upsertSet_self u g nb s.accounts, rfl,
      fun hc => absurd hc (by omega), fun _ => rfl, fun hc => absurd hc (by omega)⟩
  · rw [setCurrencyBalanceAndLog_zero u g nb r i false s hzero]
    exact ⟨rfl, rfl, getBalance_upsertSet_self u g nb s.accounts, rfl,
      fun hc => absurd hc (by omega), fun hc => absurd hc (by omega),
      fun _ => ⟨rfl, by rw [getBalance_upsertSet_self u g nb s.accounts]; omega⟩⟩
  · rw [setCurrencyBalanceAndLog_mint u g nb r i s hpos]
    exact ⟨rfl, rfl, getBalance_upsertSet_self u g nb s.accounts, rfl,
      fun _ => rfl, fun hc => absurd hc (by omega), fun hc => absurd hc (by omega)⟩

/-- C8 witness: setting the balance to its current value 100 appends no
ledger row and leaves the balance unchanged; setting it to 60 appends one
BURN of 40. -/
theorem set_balance_spec_witness :
    (0:Int) ≤ 100
    ∧ (setCurrencyBalanceAndLog exUser exGuild 100 "ADMIN_SET" exAdmin false
        exState100).1.ledger = exState100.ledger
    ∧ (0:Int) ≤ 60
    ∧ (setCurrencyBalanceAndLog exUser exGuild 60 "ADMIN_SET" exAdmin false
        exState100).1.ledger
      = exState100.ledger ++
          [⟨exGuild, .BURN, "ADMIN_SET", exUser, SYSTEM_USER_ID,
            |((60:Int)) - getBalance exUser exGuild exState100.accounts|, exAdmin⟩] := by
  have h1 := set_balance_spec exState100 exUser exGuild 100 "ADMIN_SET" exAdmin (by decide)
  have h2 := set_balance_spec exState100 exUser exGuild 60 "ADMIN_SET" exAdmin (by decide)
  exact ⟨by decide, (h1.2.2.2.2.2.2 (by decide)).1, by decide,
    h2.2.2.2.2.2.1 (by decide)⟩

/-! ## Claim C9: collateral-tax attribution -/

/-- C9: every WEALTH_TAX_COLLATERAL ledger event appended by
`apply_wealth_tax` records the shared `COLLATERAL_POOL_ID` sentinel as
sender, regardless of which user owns the taxed position; the owner is
not recorded in the ledger row and only contributes to the returned
distinct-user count. -/
theorem collateral_tax_attribution (f : Int → Int) (g i : Nat) (s : EconState) :
    (applyWealthTax f g i false s).1.ledger
        = s.ledger ++ (cashEvents f g i s.accounts ++ stockEvents f g i s.positions)
    ∧ (∀ e ∈ stockEvents f g i s.positions,
        e.reason = "WEALTH_TAX_COLLATERAL" ∧ e.sender = COLLATERAL_POOL_ID)
    ∧ (∀ e ∈ cashEvents f g i s.accounts ++ stockEvents f g i s.positions,
        e.reason = "WEALTH_TAX_COLLATERAL" → e.sender = COLLATERAL_POOL_ID)
    ∧ (applyWealthTax f g i false s).2
        = .ok ((((taxedCash f g s.accounts).map Account.user)
            ++ ((taxedStocks f g s.positions).map Position.user)).dedup.length,
          taxTotal f g s) := by
  refine ⟨?_, ?_, ?_, ?_⟩
  · rw [applyWealthTax_run]
  · intro e he
    rw [stockEvents] at he
    rcases List.mem_map.mp he with ⟨p, hp, rfl⟩
    exact ⟨rfl, rfl⟩
  · intro e he
    rcases List.mem_append.mp he with hc | hs
    · rw [cashEvents] at hc
      rcases List.mem_map.mp hc with ⟨a, ha, rfl⟩
      intro hr
      have hbad : ("WEALTH_TAX" : String) = "WEALTH_TAX_COLLATERAL" := hr
      exact absurd hbad (by decide)
    · rw [stockEvents] at hs
      rcases List.mem_map.mp hs with ⟨p, hp, rfl⟩
      intro _
      rfl
  · rw [applyWealthTax_run]
    rfl

/-- C9 witness: taxing the example position (owner `exUser`, collateral
1000) emits one collateral BURN event whose sender is the pool sentinel,
not the owner. -/
theorem collateral_tax_attribution_witness :
    ((⟨exGuild, .BURN, "WEALTH_TAX_COLLATERAL", COLLATERAL_POOL_ID, SYSTEM_USER_ID, 498,
        exAdmin⟩ : LedgerEvent) ∈ stockEvents exTaxFun exGuild exAdmin exPosState.positions)
    ∧ (⟨exGuild, .BURN, "WEALTH_TAX_COLLATERAL", COLLATERAL_POOL_ID, SYSTEM_USER_ID, 498,
        exAdmin⟩ : LedgerEvent).sender = COLLATERAL_POOL_ID := by
  have hmem : (⟨exGuild, .BURN, "WEALTH_TAX_COLLATERAL", COLLATERAL_POOL_ID, SYSTEM_USER_ID,
      498, exAdmin⟩ : LedgerEvent)
      ∈ stockEvents exTaxFun exGuild exAdmin exPosState.positions := by decide
  exact ⟨hmem,
    ((collateral_tax_attribution exTaxFun exGuild exAdmin exPosState).2.1 _ hmem).2⟩

/-! ## Claim C7: wealth-tax aggregates -/

/-- C7: `apply_wealth_tax` never increases any account's balance, never
produces a negative balance (given non-negative balances and the
non-negativity of the ceiling-power map on taxed values, which holds for
every real exponent), and returns exactly the number of distinct users
affected across cash and collateral together with the sum of
old − new over the affected cash accounts and positions. -/
theorem wealth_tax_aggregates (f : Int → Int) (g i : Nat) (s : EconState)
    (hf : ∀ b : Int, 10 < b → 0 ≤ f b)
    (hnn : ∀ a ∈ s.accounts, 0 ≤ a.currency) :
    (∀ u g' : Nat,
        getBalance u g' (applyWealthTax f g i false s).1.accounts
          ≤ getBalance u g' s.accounts)
    ∧ (∀ a ∈ (applyWealthTax f g i false s).1.accounts, 0 ≤ a.currency)
    ∧ (applyWealthTax f g i false s).2
        = .ok (taxAffected f g s,
            ((taxedCash f g s.accounts).map (fun a => a.currency - f a.currency)).sum
              + ((taxedStocks f g s.positions).map
                  (fun p => p.collateral - f p.collateral)).sum)
    ∧ (∀ (e : ℝ) (b : Int), 10 < b → 0 ≤ ceilPow e b) := by
  refine ⟨?_, ?_, ?_, ?_⟩
  · intro u g'
    show getBalance u g' (applyWealthTax f g i false s).1.accounts
      ≤ getBalance u g' s.accounts
    rw [applyWealthTax_run]
    show getBalance u g' (s.accounts.map (taxAccount f g)) ≤ getBalance u g' s.accounts
    rw [getBalance, getBalance, findAccount_taxMap]
    cases findAccount u g' s.accounts with
    | none => exact le_refl 0
    | some acc =>
        show (taxAccount f g acc).currency ≤ acc.currency
        exact taxAccount_currency_le f g acc
  · show ∀ a ∈ (applyWealthTax f g i false s).1.accounts, 0 ≤ a.currency
    rw [applyWealthTax_run]
    exact nonneg_taxMap f g s.accounts hf hnn
  · rw [applyWealthTax_run]
    rfl
  · intro e b hb
    rw [ceilPow]
    have hbpos : (0:ℝ) < (b:ℝ) := by
      exact_mod_cast (by omega : (0:Int) < b)
    exact Int.ceil_nonneg (le_of_lt (Real.rpow_pos_of_pos hbpos e))

/-- C7 witness: the aggregate facts evaluated with the constant-502
stand-in map on a guild holding one account at balance 1000. -/
theorem wealth_tax_aggregates_witness :
    (∀ b : Int, 10 < b → 0 ≤ exTaxFun b)
    ∧ (∀ a ∈ exTaxState.accounts, 0 ≤ a.currency)
    ∧ getBalance exUser exGuild (applyWealthTax exTaxFun exGuild exAdmin false
        exTaxState).1.accounts ≤ getBalance exUser exGuild exTaxState.accounts
    ∧ (applyWealthTax exTaxFun exGuild exAdmin false exTaxState).2
        = .ok (taxAffected exTaxFun exGuild exTaxState,
            ((taxedCash exTaxFun exGuild exTaxState.accounts).map
                (fun a => a.currency - exTaxFun a.currency)).sum
              + ((taxedStocks exTaxFun exGuild exTaxState.positions).map
                  (fun p => p.collateral - exTaxFun p.collateral)).sum) := by
  have hf : ∀ b : Int, 10 < b → 0 ≤ exTaxFun b := by
    intro b hb
    show (0:Int) ≤ 502
    decide
  have hnn : ∀ a ∈ exTaxState.accounts, 0 ≤ a.currency := by decide
  have h := wealth_tax_aggregates exTaxFun exGuild exAdmin exTaxState hf hnn
  exact ⟨hf, hnn, h.1 exUser exGuild, h.2.2.1⟩

/-! ## Claim C6: wealth-tax transform -/

theorem wealth_tax_example_eval (f : Int → Int) (hf : f 1000 = 502) :
    applyWealthTax f exGuild exAdmin false exTaxState
      = ({ exTaxState with
            accounts := [⟨exUser, exGuild, 502, 0, 0⟩],
            ledger := [⟨exGuild, .BURN, "WEALTH_TAX", exUser, SYSTEM_USER_ID, 498,
              exAdmin⟩] },
          .ok (1, 498)) := by
  rw [applyWealthTax_run]
  have hc : cashCond f exGuild ⟨exUser, exGuild, 1000, 0, 0⟩ = true := by
    rw [cashCond, decide_eq_true_eq]
    refine ⟨rfl, by decide, ?_⟩
    show (0:Int) < 1000 - f 1000
    rw [hf]
    decide
  have hacc : exTaxState.accounts = [⟨exUser, exGuild, 1000, 0, 0⟩] := rfl
  have hpos : exTaxState.positions = ([] : List Position) := rfl
  have hled : exTaxState.ledger = ([] : List LedgerEvent) := rfl
  rw [hacc, hpos, hled]
  simp only [List.map_cons, List.map_nil, cashEvents, stockEvents, taxedCash, taxedStocks,
    taxAffected, taxTotal, cashBurned, stockBurned, List.filter, hc, taxAccount, if_pos hc,
    hacc, hpos, hled]
  simp only [hf]
  norm_num [List.dedup_cons_of_not_mem, List.dedup_nil]

/-- C6: `apply_wealth_tax` rewrites exactly the guild's cash rows with
balance > 10 and positive tax to `f balance` (the ceiling-power map),
rewrites exactly the guild's positions with collateral > 10 and positive
tax to the transformed collateral with notional rescaled by
new/old collateral (truncated toward zero) while skipping positions whose
rescaled notional has magnitude below 1; and on a guild holding one
account at balance 1000 with exponent 9/10 the balance becomes
`ceil(1000 ^ 0.9) = 502`, with one WEALTH_TAX BURN ledger row of amount
498 and result (1 affected, 498 removed). -/
theorem wealth_tax_formula :
    (∀ (f : Int → Int) (g i : Nat) (s : EconState),
        (applyWealthTax f g i false s).1.accounts
            = s.accounts.map (fun a =>
                if a.guild = g ∧ 10 < a.currency ∧ 0 < a.currency - f a.currency
                then { a with currency := f a.currency } else a)
        ∧ (applyWealthTax f g i false s).1.positions
            = s.positions.map (fun p =>
                if p.guild = g ∧ 10 < p.collateral ∧ 0 < p.collateral - f p.collateral ∧
                    1 ≤ |Int.tdiv (p.notional * f p.collateral) p.collateral|
                then { p with
                        collateral := f p.collateral,
                        notional := Int.tdiv (p.notional * f p.collateral) p.collateral }
                else p))
    ∧ ceilPow (9/10) 1000 = 502
    ∧ applyWealthTax (ceilPow (9/10)) exGuild exAdmin false exTaxState
        = ({ exTaxState with
              accounts := [⟨exUser, exGuild, 502, 0, 0⟩],
              ledger := [⟨exGuild, .BURN, "WEALTH_TAX", exUser, SYSTEM_USER_ID, 498,
                exAdmin⟩] },
            .ok (1, 498)) := by
  have h502 : ceilPow (9/10) 1000 = 502 := by
    rw [ceilPow]
    have hcast : (((1000 : Int)) : ℝ) = (1000 : ℝ) := by norm_num
    rw [hcast]
    have key : ((1000 : ℝ) ^ ((9:ℝ)/10)) ^ (10 : ℕ) = (1000 : ℝ) ^ (9 : ℕ) := by
      rw [← Real.rpow_natCast ((1000 : ℝ) ^ ((9:ℝ)/10)) 10, ← Real.rpow_mul (by norm_num)]
      rw [show (9:ℝ)/10 * ((10:ℕ):ℝ) = ((9:ℕ):ℝ) by push_cast; ring]
      exact Real.rpow_natCast 1000 9
    have hpos : (0:ℝ) ≤ (1000 : ℝ) ^ ((9:ℝ)/10) := Real.rpow_nonneg (by norm_num) _
    have h1 : (501 : ℝ) < (1000 : ℝ) ^ ((9:ℝ)/10) := by
      apply lt_of_pow_lt_pow_left₀ 10 hpos
      rw [key]
      norm_num
    have h2 : (1000 : ℝ) ^ ((9:ℝ)/10) < 502 := by
      apply lt_of_pow_lt_pow_left₀ 10 (by norm_num : (0:ℝ) ≤ 502)
      rw [key]
      norm_num
    rw [Int.ceil_eq_iff]
    constructor
    · push_cast
      linarith
    · push_cast
      linarith
  refine ⟨?_, h502, wealth_tax_example_eval (ceilPow (9/10)) h502⟩
  intro f g i s
  constructor
  · rw [applyWealthTax_run]
    show s.accounts.map (taxAccount f g) = _
    apply List.map_congr_left
    intro a _
    rw [taxAccount]
    by_cases hc : a.guild = g ∧ 10 < a.currency ∧ 0 < a.currency - f a.currency
    · rw [if_pos ((cashCond_iff f g a).mpr hc), if_pos hc]
    · rw [if_neg (fun hb => hc ((cashCond_iff f g a).mp hb)), if_neg hc]
  · rw [applyWealthTax_run]
    show s.positions.map (taxPosition f g) = _
    apply List.map_congr_left
    intro p _
    rw [taxPosition]
    by_cases hc : p.guild = g ∧ 10 < p.collateral ∧ 0 < p.collateral - f p.collateral ∧
        1 ≤ |Int.tdiv (p.notional * f p.collateral) p.collateral|
    · rw [if_pos ((stockCond_iff f g p).mpr hc), if_pos hc]
      rfl
    · rw [if_neg (fun hb => hc ((stockCond_iff f g p).mp hb)), if_neg hc]

/-! ## Claim C10: leaderboard -/

theorem insertDesc_perm (key : Account → Int) (a : Account) (l : List Account) :
    List.Perm (insertDesc key a l) (a :: l) := by
  induction l with
  | nil => exact List.Perm.refl _
  | cons b rest ih =>
      rw [insertDesc]
      by_cases hba : key b ≤ key a
      · rw [if_pos hba]
      · rw [if_neg hba]
        exact (ih.cons b).trans (List.Perm.swap a b rest)

theorem sortDesc_perm (key : Account → Int) (l : List Account) :
    List.Perm (sortDesc key l) l := by
  induction l with
  | nil => exact List.Perm.refl _
  | cons a rest ih =>
      rw [sortDesc]
      exact (insertDesc_perm key a (sortDesc key rest)).trans (ih.cons a)

theorem insertDesc_pairwise (key : Account → Int) (a : Account) (l : List Account)
    (h : List.Pairwise (fun x y => key y ≤ key x) l) :
    List.Pairwise (fun x y => key y ≤ key x) (insertDesc key a l) := by
  induction l with
  | nil => exact List.pairwise_singleton _ a
  | cons b rest ih =>
      rw [insertDesc]
      rcases List.pairwise_cons.mp h with ⟨hb, hrest⟩
      by_cases hba : key b ≤ key a
      · rw [if_pos hba]
        refine List.pairwise_cons.mpr ⟨?_, h⟩
        intro y hy
        rcases List.mem_cons.mp hy with rfl | hy'
        · exact hba
        · exact le_trans (hb y hy') hba
      · rw [if_neg hba]
        refine List.pairwise_cons.mpr ⟨?_, ih hrest⟩
        intro y hy
        rcases List.mem_cons.mp ((insertDesc_perm key a rest).mem_iff.mp hy) with rfl | hy'
        · exact le_of_lt (not_le.mp hba)
        · exact hb y hy'

theorem sortDesc_pairwise (key : Account → Int) (l : List Account) :
    List.Pairwise (fun x y => key y ≤ key x) (sortDesc key l) := by
  induction l with
  | nil => exact List.Pairwise.nil
  | cons a rest ih =>
      rw [sortDesc]
      exact insertDesc_pairwise key a (sortDesc key rest) ih

theorem insertDesc_filter (key : Account → Int) (a : Account) (l : List Account) (v : Int) :
    (insertDesc key a l).filter (fun x => key x == v)
      = (a :: l).filter (fun x => key x == v) := by
  induction l with
  | nil => rfl
  | cons b rest ih =>
      rw [insertDesc]
      by_cases hba : key b ≤ key a
      · rw [if_pos hba]
      · rw [if_neg hba]
        have hab : key a < key b := not_le.mp hba
        by_cases hpb : key b = v
        · have hpa : ¬ key a = v := fun hc => absurd (hc.trans hpb.symm) (ne_of_lt hab)
          simp [List.filter_cons, hpb, hpa, ih]
        · simp [List.filter_cons, hpb, ih]

theorem sortDesc_filter (key : Account → Int) (l : List Account) (v : Int) :
    (sortDesc key l).filter (fun x => key x == v)
      = l.filter (fun x => key x == v) := by
  induction l with
  | nil => rfl
  | cons a rest ih =>
      rw [sortDesc, insertDesc_filter, List.filter_cons, List.filter_cons, ih]

/-- C10: `get_leaderboard` returns exactly the guild's accounts with the
stat strictly positive, ranked by the stat in descending order (rank = 1 +
number of strictly greater qualifying rows), truncated to the top `limit`
entries, and the materialized order is a stable permutation of the
qualifying rows — equal stat values keep their insertion/account order. -/
theorem get_leaderboard_spec (g : Nat) (stat : StatName) (limit : Nat) (l : List Account) :
    (getLeaderboard g stat limit l).length
        = min limit (leaderboardRows g stat l).length
    ∧ List.Pairwise (fun x y : Nat × Nat × Int => y.2.2 ≤ x.2.2)
        (getLeaderboard g stat limit l)
    ∧ (∀ e ∈ getLeaderboard g stat limit l, ∃ a, a ∈ l ∧ a.guild = g
        ∧ 0 < statValue stat a
        ∧ e = (rankOf (statValue stat) (leaderboardRows g stat l) a, a.user,
            statValue stat a))
    ∧ List.Perm (sortDesc (statValue stat) (leaderboardRows g stat l))
        (leaderboardRows g stat l)
    ∧ (∀ v : Int,
        (sortDesc (statValue stat) (leaderboardRows g stat l)).filter
            (fun x => statValue stat x == v)
          = (leaderboardRows g stat l).filter (fun x => statValue stat x == v)) := by
  refine ⟨?_, ?_, ?_, sortDesc_perm _ _, fun v => sortDesc_filter _ _ v⟩
  · rw [getLeaderboard, List.length_take, List.length_map, (sortDesc_perm _ _).length_eq]
  · rw [getLeaderboard]
    apply List.Pairwise.sublist (List.take_sublist _ _)
    rw [List.pairwise_map]
    exact sortDesc_pairwise _ _
  · intro e he
    rw [getLeaderboard] at he
    have he2 := (List.take_sublist _ _).subset he
    rcases List.mem_map.mp he2 with ⟨a, hmem, rfl⟩
    have hmem2 : a ∈ leaderboardRows g stat l := (sortDesc_perm _ _).subset hmem
    rw [leaderboardRows] at hmem2
    rcases List.mem_filter.mp hmem2 with ⟨hal, hcond⟩
    rw [Bool.and_eq_true, beq_iff_eq, decide_eq_true_eq] at hcond
    exact ⟨a, hal, hcond.1, hcond.2, rfl⟩

/-- C10 witness: on five accounts (stats 5, 9, 9, 0 in the guild and 50
elsewhere) the top-2 leaderboard is the two tied 9s, in insertion order,
both with rank 1. -/
theorem get_leaderboard_spec_witness :
    getLeaderboard exGuild StatName.currency 2 exLbAccounts
        = [(1, exUser2, 9), (1, 2000003, 9)]
    ∧ ((1, exUser2, (9:Int)) ∈ getLeaderboard exGuild StatName.currency 2 exLbAccounts)
    ∧ ∃ a, a ∈ exLbAccounts ∧ a.guild = exGuild ∧ 0 < statValue StatName.currency a
        ∧ ((1:Nat), exUser2, (9:Int)) = (rankOf (statValue StatName.currency)
            (leaderboardRows exGuild StatName.currency exLbAccounts) a, a.user,
            statValue StatName.currency a) :=
  ⟨by decide, by decide,
    (get_leaderboard_spec exGuild StatName.currency 2 exLbAccounts).2.2.1 _ (by decide)⟩

end FeijoaBot
